import Mathlib

/-!
# AKNDoc (packages/akomantoso-doc/lib/aknDoc.js)

A shallow embedding of the class `AKNDoc` and a verification development over it.

## Modelling of the JavaScript object graph

* `JVal` is the universe of values the class manipulates: plain structured
  data (`null`, booleans, integers, strings, arrays, objects), `undefined`, and
  `ref a`, a reference to a shared mutable array that lives in the `Heap` at
  address `a`.
* Objects and arrays that are owned by exactly one holder are carried by value
  (`obj`, `arr`); writing into them rebuilds the holder.  The arrays the class
  mutates while they are reachable from several holders are kept in the heap
  and named by `ref`: this is the `signature` array of the conclusions skeleton,
  which `{ ...conclTemplate.conclusions }` copies by reference into every
  instance and `{ ...this.conclusions }` copies by reference into the tree.
* The write `xml.akomaNtoso.doc.conclusions = ...` of `finalize` goes through
  the top-level spread copy into the object `this.metaAndMain.akomaNtoso.doc`
  itself; it is modelled as a write to `this.metaAndMain`.
* A property list denotes the object obtained by entering its pairs in order,
  so the last pair of a name is the one that counts (`getProp`).  Enumeration
  order is insertion order; the rule of JavaScript that integer-like names are
  enumerated first is not modelled, and every statement below is made through
  property lookups.
* The names every object inherits from `Object.prototype` (`protoNames`) are
  modelled where the class looks a caller-supplied name up: the test `e in ...`
  of the identification merge and the lookup `references[type]`.  The paths the
  class reads are fixed names, none of them inherited.  Writing a property
  named `__proto__` is not modelled.
* Numbers are integers; `signaturesNum` and the block counter are naturals.
* `fromString` takes the parse of the wire-format engine as a parameter; the
  `signature` array of a parsed conclusions section, which the instance will
  push to and share, is placed in the heap at an address given by the caller
  of the model.
* The wire-format engine (`xmlbuilder2`) is outside the model: `finalize` and
  `finalizeNoConclusions` return the tree they hand to `create`, as the engine
  sees it at the time of the call.
-/

namespace AKN

/-- Values of the object graph. -/
inductive JVal where
  | undef
  | null
  | bool (b : Bool)
  | num (n : Int)
  | str (s : String)
  | arr (xs : List JVal)
  | obj (kvs : List (String × JVal))
  | ref (a : Nat)

/-- Own properties of an object, in insertion order. -/
abbrev Props := List (String × JVal)

/-- Contents of the shared arrays, by address. -/
abbrev Heap := Nat → List JVal

/-- Ways a call can fail. -/
inductive Err where
  | typeError
  | syntaxError
  | unmodelled
  deriving DecidableEq

/-! ## Property lists -/

/-- Value of the property `k`; the last pair of that name counts. -/
def getProp (k : String) : Props → Option JVal
  | [] => none
  | (k', v) :: rest => (getProp k rest).or (if k' = k then some v else none)

/-- Own-property test. -/
def hasProp (k : String) (o : Props) : Bool := (getProp k o).isSome

/-- Give every pair named `k` the value `v`. -/
def replaceProp (k : String) (v : JVal) : Props → Props
  | [] => []
  | (k', v') :: rest =>
    if k' = k then (k', v) :: replaceProp k v rest else (k', v') :: replaceProp k v rest

/-- Property write `o[k] = v`: an existing property keeps its place, a new one
is entered last. -/
def setProp (k : String) (v : JVal) (o : Props) : Props :=
  if hasProp k o then replaceProp k v o else o ++ [(k, v)]

/-- Property removal `delete o[k]`. -/
def delProp (k : String) : Props → Props
  | [] => []
  | (k', v') :: rest => if k' = k then delProp k rest else (k', v') :: delProp k rest

/-- Enter the pairs `es` into `o` one after the other. -/
def assignAll (o : Props) : Props → Props
  | [] => o
  | (k, v) :: es => assignAll (setProp k v o) es

/-- Pairs index/element of an array, from index `i` on. -/
def indexed (i : Nat) : List JVal → Props
  | [] => []
  | x :: xs => (toString i, x) :: indexed (i + 1) xs

/-- Own enumerable properties copied by a spread `...v`.  A string is spread
character by character; its characters are taken to lie in the Basic
Multilingual Plane, where a character is one UTF-16 code unit. -/
def spread (h : Heap) : JVal → Props
  | .obj o => o
  | .arr xs => indexed 0 xs
  | .ref a => indexed 0 (h a)
  | .str s => indexed 0 (s.toList.map (fun c => JVal.str (String.singleton c)))
  | _ => []

/-- The object literal `{ ...a, ...b }`. -/
def spread2 (h : Heap) (a b : JVal) : JVal :=
  .obj (assignAll (assignAll [] (spread h a)) (spread h b))

/-- The object literal `{ ...a }`. -/
def spread1 (h : Heap) (a : JVal) : JVal :=
  .obj (assignAll [] (spread h a))

/-- The property names every object inherits from `Object.prototype`. -/
def protoNames : List String :=
  ["constructor", "__defineGetter__", "__defineSetter__", "hasOwnProperty",
   "__lookupGetter__", "__lookupSetter__", "isPrototypeOf", "propertyIsEnumerable",
   "toString", "valueOf", "__proto__", "toLocaleString"]

/-- Is the name inherited from `Object.prototype`? -/
def inherited (k : String) : Bool := protoNames.contains k

/-! ## Property access on values -/

namespace JVal

/-- Property read `v[k]`. -/
def read (v : JVal) (k : String) : Except Err JVal :=
  match v with
  | .undef => .error .typeError
  | .null => .error .typeError
  | .obj o => .ok ((getProp k o).getD .undef)
  | .bool _ => .ok .undef
  | .num _ => .ok .undef
  | _ => .error .unmodelled

/-- The test `k in v`: own properties and the names inherited from
`Object.prototype`. -/
def has (v : JVal) (k : String) : Except Err Bool :=
  match v with
  | .obj o => .ok (hasProp k o || inherited k)
  | .arr _ => .error .unmodelled
  | .ref _ => .error .unmodelled
  | _ => .error .typeError

/-- Property write `v[k] = x` (strict mode), giving the holder after the write. -/
def assign (v : JVal) (k : String) (x : JVal) : Except Err JVal :=
  match v with
  | .obj o => .ok (.obj (setProp k x o))
  | .arr _ => .error .unmodelled
  | .ref _ => .error .unmodelled
  | _ => .error .typeError

/-- Names listed by `Object.keys(v)`. -/
def keys (h : Heap) (v : JVal) : Except Err (List String) :=
  match v with
  | .undef => .error .typeError
  | .null => .error .typeError
  | v => .ok ((spread h v).map Prod.fst)

end JVal

/-- Read along a path: `v.k1.k2...`. -/
def readPath : JVal → List String → Except Err JVal
  | v, [] => .ok v
  | v, k :: ks =>
    match v.read k with
    | .ok c => readPath c ks
    | .error e => .error e

/-- The write `v.p1.p2...pn[k] = x`, giving `v` after the write. -/
def assignPath (v : JVal) : List String → String → JVal → Except Err JVal
  | [], k, x => v.assign k x
  | p :: ps, k, x =>
    match v.read p with
    | .error e => .error e
    | .ok c =>
      match assignPath c ps k x with
      | .error e => .error e
      | .ok c' => v.assign p c'

/-- Two paths part ways at some name (neither leads into the other). -/
def diverges : List String → List String → Bool
  | a :: p, b :: q => if a = b then diverges p q else true
  | _, _ => false

/-! ## Copies and views -/

mutual
/-- Copy of a record held in a shared array (records hold no reference). -/
def plainCopy : JVal → JVal
  | .obj o => .obj (plainCopyProps o)
  | .arr xs => .arr (plainCopyElems xs)
  | .undef => .undef
  | .ref _ => .null
  | v => v
/-- Properties of the copy: those holding `undefined` are dropped. -/
def plainCopyProps : Props → Props
  | [] => []
  | (_, .undef) :: rest => plainCopyProps rest
  | (k, v) :: rest => (k, plainCopy v) :: plainCopyProps rest
/-- Elements of the copy: `undefined` becomes `null`. -/
def plainCopyElems : List JVal → List JVal
  | [] => []
  | .undef :: rest => .null :: plainCopyElems rest
  | v :: rest => plainCopy v :: plainCopyElems rest
end

mutual
/-- The value rebuilt by `JSON.parse(JSON.stringify(v))` below the top level. -/
def jsonCopy (h : Heap) : JVal → JVal
  | .obj o => .obj (jsonCopyProps h o)
  | .arr xs => .arr (jsonCopyElems h xs)
  | .ref a => .arr (plainCopyElems (h a))
  | v => v
/-- Properties of the JSON copy: those holding `undefined` are dropped. -/
def jsonCopyProps (h : Heap) : Props → Props
  | [] => []
  | (_, .undef) :: rest => jsonCopyProps h rest
  | (k, v) :: rest => (k, jsonCopy h v) :: jsonCopyProps h rest
/-- Elements of the JSON copy: `undefined` becomes `null`. -/
def jsonCopyElems (h : Heap) : List JVal → List JVal
  | [] => []
  | .undef :: rest => .null :: jsonCopyElems h rest
  | v :: rest => jsonCopy h v :: jsonCopyElems h rest
end

/-- The deep copy `JSON.parse(JSON.stringify(v))`: a new tree without references. -/
def jsonClone (h : Heap) : JVal → Except Err JVal
  | .undef => .error .syntaxError
  | v => .ok (jsonCopy h v)

mutual
/-- The tree a reader sees at a given moment: every reference replaced by the
current contents of the array it names. -/
def resolve (h : Heap) : JVal → JVal
  | .obj o => .obj (resolveProps h o)
  | .arr xs => .arr (resolveElems h xs)
  | .ref a => .arr (h a)
  | v => v
/-- Properties of the view. -/
def resolveProps (h : Heap) : Props → Props
  | [] => []
  | (k, v) :: rest => (k, resolve h v) :: resolveProps h rest
/-- Elements of the view. -/
def resolveElems (h : Heap) : List JVal → List JVal
  | [] => []
  | v :: rest => resolve h v :: resolveElems h rest
end

/-! ## Inputs and skeletons -/

/-- A reference descriptor of the construction input. -/
structure Reference where
  type : String
  eId : JVal
  href : JVal
  showAs : JVal

/-- A block descriptor of the construction input. -/
structure Block where
  blockTitle : JVal
  p : JVal

/-- The three identification sub-groups of the construction input. -/
structure Identification where
  FRBRWork : Props
  FRBRExpression : Props
  FRBRManifestation : Props

/-- The construction input `docElements`. -/
structure DocElements where
  identification : Identification
  references : List Reference
  prefaceTitle : JVal
  mainBody : List Block

/-- The constants of `./templates` (`utils.templates`), taken as parameters:
the document skeleton and the object `conclTemplate`. -/
structure Templates where
  metaAndMainTemplate : JVal
  conclTemplate : JVal

/-! ## The class -/

/-- Fields of an instance. -/
structure AKNDoc where
  metaAndMain : JVal
  conclusions : JVal
  signaturesNum : Nat

/-- The heap together with the instance a method runs on. -/
structure St where
  heap : Heap
  self : AKNDoc

/-- How a method call ends: a return value or an exception, and the state it
leaves behind. -/
inductive Outcome (α : Type) where
  | ret (val : α) (st : St)
  | thrown (e : Err) (st : St)

/-- The state a call leaves behind. -/
def Outcome.st {α : Type} : Outcome α → St
  | .ret _ s => s
  | .thrown _ s => s

/-- The value a call returns, if it returns. -/
def Outcome.val? {α : Type} : Outcome α → Option α
  | .ret v _ => some v
  | .thrown _ _ => none

/-- The constructor. -/
def AKNDoc.new : AKNDoc :=
  { metaAndMain := .obj [], conclusions := .obj [], signaturesNum := 0 }

/-- Run `f` on the elements of a list in order, as `forEach` does, stopping at
the first exception. -/
def forEach {α : Type} (f : JVal → α → Except Err JVal) : List α → JVal → Except Err JVal
  | [], xml => .ok xml
  | a :: as, xml =>
    match f xml a with
    | .error e => .error e
    | .ok xml' => forEach f as xml'

/-- Path of an identification sub-group in the tree. -/
def identPath (g : String) : List String :=
  ["akomaNtoso", "doc", "meta", "identification", g]

/-- Body of the `forEach` over the names of a caller sub-group (lines 29-40,
43-54, 57-68, which differ in the name `g` of the sub-group only).  When `e` is
not an own property but an inherited name, `e in ...` holds and the value read
is the inherited member, which has no own enumerable property: `read` gives
`undefined` in its place, whose spread is empty as well. -/
def mergeField (h : Heap) (g : String) (src : Props) (xml : JVal) (e : String) :
    Except Err JVal :=
  match readPath xml (identPath g) with
  | .error err => .error err
  | .ok grp =>
    match grp.has e with
    | .error err => .error err
    | .ok true =>
      match grp.read e with
      | .error err => .error err
      | .ok old => assignPath xml (identPath g) e (spread2 h old ((getProp e src).getD .undef))
    | .ok false => assignPath xml (identPath g) e (spread1 h ((getProp e src).getD .undef))

/-- Merge of one caller sub-group into the tree. -/
def mergeGroup (h : Heap) (g : String) (src : Props) (xml : JVal) : Except Err JVal :=
  forEach (mergeField h g src) (src.map Prod.fst) xml

/-- Path of the references collection. -/
def refsPath : List String := ["akomaNtoso", "doc", "meta", "references"]

/-- The entry pushed for a reference descriptor. -/
def refEntry (r : Reference) : JVal :=
  .obj [("@eId", r.eId), ("@href", r.href), ("@showAs", r.showAs)]

/-- Has the object at path `p` an own property `k`? -/
def ownAt (xml : JVal) (p : List String) (k : String) : Bool :=
  match readPath xml p with
  | .ok (.obj o) => hasProp k o
  | _ => false

/-- Body of the `forEach` over the references (lines 72-83).  When the type
tag is not an own property of the collection but a name inherited from
`Object.prototype`, the lookup of line 74 finds the inherited member: it is not
`undefined`, so no group is created, and it has no `push`, so the call of line
78 throws a TypeError. -/
def addReference (xml : JVal) (r : Reference) : Except Err JVal :=
  if inherited r.type && !ownAt xml refsPath r.type then .error .typeError
  else
    match readPath xml (refsPath ++ [r.type]) with
    | .error e => .error e
    | .ok cur =>
      match (match cur with
        | .undef => assignPath xml refsPath r.type (.arr [])
        | _ => .ok xml) with
      | .error e => .error e
      | .ok xml1 =>
        match readPath xml1 (refsPath ++ [r.type]) with
        | .error e => .error e
        | .ok (.arr xs) => assignPath xml1 refsPath r.type (.arr (xs ++ [refEntry r]))
        | .ok (.ref _) => .error .unmodelled
        | .ok _ => .error .typeError

/-- Path of the title slot holder in the preface. -/
def titlePath : List String := ["akomaNtoso", "doc", "preface", "longTitle"]

/-- Path of the body. -/
def bodyPath : List String := ["akomaNtoso", "doc", "mainBody"]

/-- The block pushed for a block descriptor when the counter `iBlock` is `i`. -/
def tblock (h : Heap) (i : Nat) (b : Block) : JVal :=
  .obj [("@eId", .str ("tblock_" ++ toString i)),
        ("heading", .obj [("@eId", .str ("tblock_" ++ toString i ++ "__heading")),
                          ("#", b.blockTitle)]),
        ("p", .obj (assignAll
                [("@eId", .str ("tblock_" ++ toString i ++ "__p_" ++ toString i))]
                (spread h b.p)))]

/-- The `forEach` over the block descriptors (lines 92-104), with the counter
`iBlock` at `i`. -/
def pushBlocks (h : Heap) : List Block → Nat → JVal → Except Err JVal
  | [], _, xml => .ok xml
  | b :: bs, i, xml =>
    match readPath xml (bodyPath ++ ["tblock"]) with
    | .error e => .error e
    | .ok (.arr xs) =>
      match assignPath xml bodyPath "tblock" (.arr (xs ++ [tblock h i b])) with
      | .error e => .error e
      | .ok xml' => pushBlocks h bs (i + 1) xml'
    | .ok (.ref _) => .error .unmodelled
    | .ok _ => .error .typeError

/-- The tree built by `newAKNDocument` (lines 25-104). -/
def buildDocument (tm : Templates) (h : Heap) (d : DocElements) : Except Err JVal :=
  match jsonClone h tm.metaAndMainTemplate with
  | .error e => .error e
  | .ok xml0 =>
  match mergeGroup h "FRBRWork" d.identification.FRBRWork xml0 with
  | .error e => .error e
  | .ok xml1 =>
  match mergeGroup h "FRBRExpression" d.identification.FRBRExpression xml1 with
  | .error e => .error e
  | .ok xml2 =>
  match mergeGroup h "FRBRManifestation" d.identification.FRBRManifestation xml2 with
  | .error e => .error e
  | .ok xml3 =>
  match forEach addReference d.references xml3 with
  | .error e => .error e
  | .ok xml4 =>
  match assignPath xml4 titlePath "p" d.prefaceTitle with
  | .error e => .error e
  | .ok xml5 =>
  match assignPath xml5 bodyPath "tblock" (.arr []) with
  | .error e => .error e
  | .ok xml6 => pushBlocks h d.mainBody 1 xml6

/-- The method `newAKNDocument(docElements)`. -/
def newAKNDocument (tm : Templates) (d : DocElements) (st : St) : Outcome Unit :=
  match buildDocument tm st.heap d with
  | .error e => .thrown e st
  | .ok xml => .ret () { st with self := { st.self with metaAndMain := xml } }

/-- The record pushed by `addSignature` when the counter has become `n`. -/
def humanRecord (n : Nat)
    (eId name roleEId roleName publicKeyHref publicKey timestamp signature : JVal) : JVal :=
  .obj [("person", .obj [("@eId", .str ("conclusion_signature_" ++ toString n ++ "_pers")),
                         ("@refersTo", eId), ("#", name)]),
        ("role", .obj [("@eId", .str ("conclusion_signature_" ++ toString n ++ "_pers_role")),
                       ("@refersTo", roleEId), ("#", roleName)]),
        ("publicKey", .obj [("@eId", .str ("conclusion_signature_" ++ toString n ++ "_pk")),
                            ("ref", .obj [("@eId", .str ("conclusion_signature_" ++ toString n
                                            ++ "_pk_ref")),
                                          ("@href", publicKeyHref), ("#", publicKey)])]),
        ("timestamp", .obj [("@eId", .str ("conclusion_signature_" ++ toString n
                              ++ "_timestamp")),
                            ("@date", timestamp), ("#", timestamp)]),
        ("digitalSignature", signature)]

/-- The record pushed by `addSwSignature` when the counter has become `n`. -/
def swRecord (n : Nat) (eId name signature : JVal) : JVal :=
  .obj [("object", .obj [("@eId", .str ("conclusion_signature_" ++ toString n ++ "_sw")),
                         ("@refersTo", eId), ("#", name)]),
        ("digitalSignature", signature)]

/-- Lines 146-147 and 184-185: an instance whose `conclusions` has no own
property gets the top-level copy `{ ...conclTemplate.conclusions }`. -/
def ensureConclusions (tm : Templates) (st : St) : Outcome Unit :=
  match st.self.conclusions.keys st.heap with
  | .error e => .thrown e st
  | .ok ks =>
    if ks.length == 0 then
      match tm.conclTemplate.read "conclusions" with
      | .error e => .thrown e st
      | .ok c => .ret () { st with self := { st.self with conclusions := spread1 st.heap c } }
    else .ret () st

/-- The call `this.conclusions.signature.push(record(++this.signaturesNum))`:
the callee is looked up first, then the argument is evaluated, which advances
the counter, then the element is appended to the array the property names. -/
def pushSignature (mk : Nat → JVal) (st : St) : Outcome Unit :=
  match st.self.conclusions.read "signature" with
  | .error e => .thrown e st
  | .ok .undef => .thrown .typeError st
  | .ok .null => .thrown .typeError st
  | .ok (.ref a) =>
    let n := st.self.signaturesNum + 1
    .ret () { heap := Function.update st.heap a (st.heap a ++ [mk n]),
              self := { st.self with signaturesNum := n } }
  | .ok (.arr _) => .thrown .unmodelled st
  | .ok _ =>
    .thrown .typeError { st with self := { st.self with signaturesNum := st.self.signaturesNum + 1 } }

/-- The method `addSignature`. -/
def addSignature (tm : Templates)
    (eId name roleEId roleName publicKeyHref publicKey timestamp signature : JVal)
    (st : St) : Outcome Unit :=
  match ensureConclusions tm st with
  | .thrown e s => .thrown e s
  | .ret _ s =>
    pushSignature
      (fun n => humanRecord n eId name roleEId roleName publicKeyHref publicKey timestamp signature)
      s

/-- The method `addSwSignature`. -/
def addSwSignature (tm : Templates) (eId name signature : JVal) (st : St) : Outcome Unit :=
  match ensureConclusions tm st with
  | .thrown e s => .thrown e s
  | .ret _ s => pushSignature (fun n => swRecord n eId name signature) s

/-- The method `finalizeNoConclusions`: `none` is the return without a value,
`some t` the tree `t` handed to the wire-format engine. -/
def finalizeNoConclusions (st : St) : Outcome (Option JVal) :=
  match st.self.metaAndMain.keys st.heap with
  | .error e => .thrown e st
  | .ok ks =>
    if ks.length == 0 then .ret none st
    else
      match jsonClone st.heap st.self.metaAndMain with
      | .error e => .thrown e st
      | .ok xml => .ret (some xml) st

/-- The method `finalize`: `none` is the return without a value, `some t` the
tree `t` handed to the wire-format engine.  `xml = { ...this.metaAndMain }`
copies the top level only, so the write to `xml.akomaNtoso.doc.conclusions`
lands in the object `this.metaAndMain.akomaNtoso.doc`. -/
def finalize (st : St) : Outcome (Option JVal) :=
  match st.self.metaAndMain.keys st.heap with
  | .error e => .thrown e st
  | .ok ks =>
    if ks.length == 0 then .ret none st
    else
      match st.self.conclusions.keys st.heap with
      | .error e => .thrown e st
      | .ok cs =>
        if cs.length != 0 then
          match assignPath st.self.metaAndMain ["akomaNtoso", "doc"] "conclusions"
              (spread1 st.heap st.self.conclusions) with
          | .error e => .thrown e st
          | .ok mm =>
            .ret (some (resolve st.heap (spread1 st.heap mm)))
              { st with self := { st.self with metaAndMain := mm } }
        else .ret (some (resolve st.heap (spread1 st.heap st.self.metaAndMain))) st

/-- A call of one of the five methods. -/
inductive Call where
  | newAKNDocument (d : DocElements)
  | addSignature (eId name roleEId roleName publicKeyHref publicKey timestamp signature : JVal)
  | addSwSignature (eId name signature : JVal)
  | finalize
  | finalizeNoConclusions

/-- The state after a call (a caller may catch an exception and go on). -/
def Call.exec (tm : Templates) : Call → St → St
  | .newAKNDocument d, st => (AKN.newAKNDocument tm d st).st
  | .addSignature a b c d e f g i, st => (AKN.addSignature tm a b c d e f g i st).st
  | .addSwSignature a b c, st => (AKN.addSwSignature tm a b c st).st
  | .finalize, st => (AKN.finalize st).st
  | .finalizeNoConclusions, st => (AKN.finalizeNoConclusions st).st

/-- The state after a sequence of calls. -/
def run (tm : Templates) : List Call → St → St
  | [], st => st
  | c :: cs, st => run tm cs (c.exec tm st)

/-- Is the call a signature append? -/
def Call.isAppend : Call → Bool
  | .addSignature .. => true
  | .addSwSignature .. => true
  | _ => false

/-- The signature ledger of an instance as a reader sees it: the elements of
`this.conclusions.signature`, empty when there is no such array. -/
def ledger (st : St) : List JVal :=
  match st.self.conclusions.read "signature" with
  | .ok (.ref a) => st.heap a
  | .ok (.arr xs) => xs
  | _ => []

/-! ## Concrete skeletons -/

/-- Address of the array `conclTemplate.conclusions.signature`. -/
def ledgerAddr : Nat := 0

/-- Modelled from the spec: the constants of `./templates`, which is not among
the sources.  The conclusions skeleton holds an empty signature ledger; the
document skeleton has the metadata (identification triple, references), the
preface with its title slot, and the body. -/
def stdTemplates : Templates :=
  { metaAndMainTemplate :=
      .obj [("akomaNtoso",
        .obj [("doc",
          .obj [("@name", .str ""),
                ("meta",
                  .obj [("identification",
                          .obj [("@source", .str ""),
                                ("FRBRWork",
                                  .obj [("FRBRthis", .obj [("@value", .str "")]),
                                        ("FRBRdate", .obj [("@date", .str ""),
                                                           ("@name", .str "")])]),
                                ("FRBRExpression",
                                  .obj [("FRBRthis", .obj [("@value", .str "")]),
                                        ("FRBRlanguage", .obj [("@language", .str "en")])]),
                                ("FRBRManifestation",
                                  .obj [("FRBRthis", .obj [("@value", .str "")])])]),
                        ("references", .obj [("@source", .str "")])]),
                ("preface", .obj [("longTitle", .obj [("p", .str "")])]),
                ("mainBody", .obj [])])])],
    conclTemplate := .obj [("conclusions", .obj [("signature", .ref ledgerAddr)])] }

/-- The heap when the module has just been loaded: every array is empty. -/
def freshHeap : Heap := fun _ => []

/-! ## Predicates and values used in the statements -/

/-- Sub-field `f` of the field `e` of an object, if the object has the field. -/
def subField (h : Heap) (o : Props) (e f : String) : Option JVal :=
  match getProp e o with
  | some t => getProp f (spread h t)
  | none => none

/-- Relation between a sub-group `o` and the sub-group `o'` after the merge
rounds for the names `ks` of the caller sub-group `src`. -/
def MergedInto (h : Heap) (src : Props) (ks : List String) (o o' : Props) : Prop :=
  (∀ e, e ∉ ks → getProp e o' = getProp e o) ∧
  (∀ e, e ∈ ks → ∃ m, getProp e o' = some (.obj m) ∧
    ∀ f, getProp f m = (getProp f (spread h ((getProp e src).getD .undef))).or (subField h o e f))

/-- Entries already held under the type tag `t`. -/
def groupOf (o : Props) (t : String) : List JVal :=
  match getProp t o with
  | some (.arr xs) => xs
  | _ => []

/-- Every type tag of the descriptors is free, also of the names inherited
from `Object.prototype`, or names a list. -/
def RefsReady (o : Props) (rs : List Reference) : Prop :=
  ∀ r ∈ rs, (getProp r.type o = none ∧ inherited r.type = false) ∨
    ∃ xs, getProp r.type o = some (.arr xs)

/-- The blocks pushed for a list of block descriptors, the counter starting at `i`. -/
def blocksFrom (h : Heap) (i : Nat) : List Block → List JVal
  | [] => []
  | b :: bs => tblock h i b :: blocksFrom h (i + 1) bs

/-- The names of the identification sub-groups with the caller's sub-groups. -/
def callerGroups (d : DocElements) : List (String × Props) :=
  [("FRBRWork", d.identification.FRBRWork),
   ("FRBRExpression", d.identification.FRBRExpression),
   ("FRBRManifestation", d.identification.FRBRManifestation)]

/-- What `newAKNDocument` needs to run to its end: a document skeleton that is
plain data (its JSON copy is the skeleton again) and has the sections the
method writes to, and reference type tags that name neither a field of the
skeleton's references collection other than a list nor a member inherited from
`Object.prototype`. -/
structure Assemblable (tm : Templates) (h : Heap) (d : DocElements) : Prop where
  plain : jsonClone h tm.metaAndMainTemplate = .ok tm.metaAndMainTemplate
  groups : ∀ g ∈ ["FRBRWork", "FRBRExpression", "FRBRManifestation"],
    ∃ o, readPath tm.metaAndMainTemplate (identPath g) = .ok (.obj o)
  refs : ∃ o, readPath tm.metaAndMainTemplate refsPath = .ok (.obj o) ∧ RefsReady o d.references
  title : ∃ o, readPath tm.metaAndMainTemplate titlePath = .ok (.obj o)
  body : ∃ o, readPath tm.metaAndMainTemplate bodyPath = .ok (.obj o)

/-- The path leads to none of the places `newAKNDocument` writes to. -/
def untouched (q : List String) : Bool :=
  diverges (identPath "FRBRWork") q && diverges (identPath "FRBRExpression") q &&
    diverges (identPath "FRBRManifestation") q && diverges refsPath q &&
    diverges titlePath q && diverges bodyPath q

/-- What the tree built from the skeleton and the input holds. -/
structure Built (tm : Templates) (h : Heap) (d : DocElements) (tree : JVal) : Prop where
  groups : ∀ g src, (g, src) ∈ callerGroups d →
    ∃ o o', readPath tm.metaAndMainTemplate (identPath g) = .ok (.obj o) ∧
      readPath tree (identPath g) = .ok (.obj o') ∧
      MergedInto h src (src.map Prod.fst) o o' ∧ (src = [] → o' = o)
  refs : ∃ o o', readPath tm.metaAndMainTemplate refsPath = .ok (.obj o) ∧
      readPath tree refsPath = .ok (.obj o') ∧
      (∀ t, (∀ r ∈ d.references, r.type ≠ t) → getProp t o' = getProp t o) ∧
      (∀ t, (∃ r ∈ d.references, r.type = t) → getProp t o' =
        some (.arr (groupOf o t ++ (d.references.filter (fun r => r.type = t)).map refEntry)))
  title : readPath tree (titlePath ++ ["p"]) = .ok d.prefaceTitle
  body : readPath tree (bodyPath ++ ["tblock"]) = .ok (.arr (blocksFrom h 1 d.mainBody))
  frame : ∀ q, untouched q = true → readPath tree q = readPath tm.metaAndMainTemplate q

/-- Value of a string of decimal digits. -/
def decimalValue (cs : List Char) : Nat :=
  cs.foldl (fun acc c => 10 * acc + (c.toNat - 48)) 0

/-- The conclusions skeleton is an object whose `signature` is the shared
array at address `a`. -/
def LedgerSkeleton (tm : Templates) (a : Nat) : Prop :=
  ∃ o, tm.conclTemplate.read "conclusions" = .ok (.obj o) ∧ getProp "signature" o = some (.ref a)

/-- The `conclusions` field of an instance is the empty object of the
constructor, or an object whose `signature` is the shared array at address `a`. -/
def LedgerState (a : Nat) (c : JVal) : Prop :=
  c = .obj [] ∨ ∃ o, c = .obj o ∧ getProp "signature" o = some (.ref a)

/-- The records a sequence of calls appends when the counter starts at `n`. -/
def recordsFrom (n : Nat) : List Call → List JVal
  | [] => []
  | .addSignature a b c d e f g i :: cs =>
    humanRecord (n + 1) a b c d e f g i :: recordsFrom (n + 1) cs
  | .addSwSignature a b c :: cs => swRecord (n + 1) a b c :: recordsFrom (n + 1) cs
  | .newAKNDocument _ :: cs => recordsFrom n cs
  | .finalize :: cs => recordsFrom n cs
  | .finalizeNoConclusions :: cs => recordsFrom n cs

/-- The number of signature appends in a sequence of calls. -/
def appendCount (cs : List Call) : Nat := (cs.filter Call.isAppend).length

/-! ## Concrete inputs and states -/

/-- A new instance in a module that has just been loaded. -/
def freshState : St := { heap := freshHeap, self := AKNDoc.new }

/-- The scenario input of the spec: one body block titled "Article 1" with the
paragraph content `{text: "Hello"}`; one identification field and one
reference are supplied. -/
def scenarioInput : DocElements :=
  { identification :=
      { FRBRWork := [("FRBRthis", .obj [("@value", .str "/akn/doc/1")])],
        FRBRExpression := [],
        FRBRManifestation := [("FRBRformat", .obj [("@value", .str "xml")])] },
    references := [{ type := "TLCPerson", eId := .str "sig1", href := .str "/p/alice",
                     showAs := .str "Alice" }],
    prefaceTitle := .str "Title",
    mainBody := [{ blockTitle := .str "Article 1", p := .obj [("text", .str "Hello")] }] }

/-- An input whose paragraph content carries an `@eId` of its own. -/
def ownIdInput : DocElements :=
  { identification := { FRBRWork := [], FRBRExpression := [], FRBRManifestation := [] },
    references := [],
    prefaceTitle := .str "Title",
    mainBody := [{ blockTitle := .str "Article 1",
                   p := .obj [("@eId", .str "custom"), ("text", .str "Hello")] }] }

/-- The software signature of the spec's scenario. -/
def botSignature : Call := .addSwSignature (.str "sw1") (.str "Notary-bot") (.str "c2lnMg==")

/-- The human signature of the spec's scenario. -/
def aliceSignature : Call :=
  .addSignature (.str "sig1") (.str "Alice") (.str "role1") (.str "Signer")
    (.str "/keys/alice") (.str "MIIB") (.str "2021-01-01") (.str "c2lnMQ==")

/-- A second instance, constructed after a first instance of the same module
has appended one software signature. -/
def secondInstance : St :=
  { heap := (run stdTemplates [botSignature] freshState).heap, self := AKNDoc.new }

/-- An instance with an assembled document and one signature. -/
def signedState : St := run stdTemplates [.newAKNDocument scenarioInput, botSignature] freshState

/-- The same instance after `finalize` has been called on it. -/
def finalizedState : St := (finalize signedState).st

/-- The tree `finalizeNoConclusions` hands to the wire-format engine, if any. -/
def payloadTree (st : St) : Option JVal := (finalizeNoConclusions st).val?.bind id

/-- The tree `finalize` hands to the wire-format engine, if any. -/
def fullTree (st : St) : Option JVal := (finalize st).val?.bind id

/-- Path of the conclusions section in a tree. -/
def conclusionsPath : List String := ["akomaNtoso", "doc", "conclusions"]

/-- Modelled from the spec: a document skeleton whose FRBRWork sub-group is the
target `{a: {y: 2}}` of the spec's merge example. -/
def mergeTemplates : Templates :=
  { metaAndMainTemplate :=
      .obj [("akomaNtoso",
        .obj [("doc",
          .obj [("meta",
                  .obj [("identification",
                          .obj [("FRBRWork", .obj [("a", .obj [("y", .num 2)])]),
                                ("FRBRExpression", .obj []),
                                ("FRBRManifestation", .obj [])]),
                        ("references", .obj [])]),
                ("preface", .obj [("longTitle", .obj [])]),
                ("mainBody", .obj [])])])],
    conclTemplate := .obj [("conclusions", .obj [("signature", .ref ledgerAddr)])] }

/-- The source `{a: {x: 1}}` of the spec's merge example, as the caller's
FRBRWork sub-group. -/
def mergeInput : DocElements :=
  { identification :=
      { FRBRWork := [("a", .obj [("x", .num 1)])], FRBRExpression := [],
        FRBRManifestation := [] },
    references := [],
    prefaceTitle := .str "",
    mainBody := [] }

mutual
/-- The value holds no reference to a shared array. -/
def refFree : JVal → Bool
  | .obj o => refFreeProps o
  | .arr xs => refFreeElems xs
  | .ref _ => false
  | _ => true
/-- No property holds a reference. -/
def refFreeProps : Props → Bool
  | [] => true
  | (_, v) :: rest => refFree v && refFreeProps rest
/-- No element holds a reference. -/
def refFreeElems : List JVal → Bool
  | [] => true
  | v :: rest => refFree v && refFreeElems rest
end

/-! ## Parsing -/

/-- Property removal `delete v[k]`, giving the holder after the removal. -/
def JVal.remove (v : JVal) (k : String) : Except Err JVal :=
  match v with
  | .obj o => .ok (.obj (delProp k o))
  | .undef => .error .typeError
  | .null => .error .typeError
  | .bool b => .ok (.bool b)
  | .num n => .ok (.num n)
  | _ => .error .unmodelled

/-- The removal `delete v.p1.p2...pn[k]`, giving `v` after the removal. -/
def deletePath (v : JVal) : List String → String → Except Err JVal
  | [], k => v.remove k
  | p :: ps, k =>
    match v.read p with
    | .error e => .error e
    | .ok c =>
      match deletePath c ps k with
      | .error e => .error e
      | .ok c' => v.assign p c'

/-- The parsed conclusions section as the instance holds it: its `signature`
array, which appends will push to and `finalize` will share with the tree, is
placed in the heap at the address `fresh` and named by reference. -/
def adoptLedger (fresh : Nat) (h : Heap) (c : JVal) : Heap × JVal :=
  match c with
  | .obj oc =>
    match getProp "signature" oc with
    | some (.arr xs) => (Function.update h fresh xs, .obj (setProp "signature" (.ref fresh) oc))
    | _ => (h, c)
  | _ => (h, c)

/-- The static method `fromString(string)`.  `convert` is the parse of the
wire-format engine (`convert(string, { format: 'object' })`), which gives a tree
without references; `fresh` is an address of the heap at which no array lives
yet.  `.ok none` is the return without a value, `.ok (some st)` the returned
instance with the heap it lives in, `.error e` an exception. -/
def fromString (convert : String → JVal) (fresh : Nat) (string : String) (heap : Heap) :
    Except Err (Option St) :=
  let xml := convert string
  match xml.has "akomaNtoso" with
  | .error e => .error e
  | .ok false => .ok none
  | .ok true =>
    match readPath xml conclusionsPath with
    | .error e => .error e
    | .ok (.str "undefined") =>
      .ok (some { heap := heap,
                  self := { metaAndMain := xml, conclusions := .obj [], signaturesNum := 0 } })
    | .ok c =>
      match deletePath xml ["akomaNtoso", "doc"] "conclusions" with
      | .error e => .error e
      | .ok mm =>
        .ok (some { heap := (adoptLedger fresh heap c).1,
                    self := { metaAndMain := mm, conclusions := (adoptLedger fresh heap c).2,
                              signaturesNum := 0 } })

/-- The tree `finalize` hands to the wire-format engine for the scenario input
assembled on a new instance, without any signature. -/
def unsignedTree : JVal :=
  match fullTree (run stdTemplates [.newAKNDocument scenarioInput] freshState) with
  | some t => t
  | none => .null

/-- An address of the heap other than the one of the skeleton's array. -/
def parsedAddr : Nat := 1

/-- A signature record of an earlier signing, as parsed. -/
def parsedRecord : JVal :=
  .obj [("object", .obj [("@eId", .str "conclusion_signature_1_sw"),
                         ("@refersTo", .str "sw0"), ("#", .str "Old-bot")]),
        ("digitalSignature", .str "b2xk")]

/-- A second signature record of an earlier signing, as parsed. -/
def parsedRecord2 : JVal :=
  .obj [("object", .obj [("@eId", .str "conclusion_signature_2_sw"),
                         ("@refersTo", .str "sw9"), ("#", .str "Older-bot")]),
        ("digitalSignature", .str "b2xkZXI=")]

/-- A parsed conclusions section with two signature records: the wire-format
engine gives the children of one name as a list when there are two or more. -/
def parsedConclusions : Props := [("signature", .arr [parsedRecord, parsedRecord2])]

/-- A parsed doc holding a body and the conclusions section. -/
def parsedDoc : Props :=
  [("mainBody", .obj [("tblock", .arr [])]), ("conclusions", .obj parsedConclusions)]

/-- The parsed root element. -/
def parsedRoot : Props := [("doc", .obj parsedDoc)]

/-- A parsed structure rooted at akomaNtoso whose doc holds a conclusions
section with two software signature records. -/
def signedParsed : JVal := .obj [("akomaNtoso", .obj parsedRoot)]

/-- A parsed conclusions section with exactly one signature element: the
wire-format engine gives a child that occurs once as the record itself, not as a
list of one record. -/
def oneSignatureConclusions : Props := [("signature", parsedRecord)]

/-- A parsed structure rooted at akomaNtoso whose doc holds a body and a
conclusions section with exactly one signature element. -/
def oneSignatureParsed : JVal :=
  .obj [("akomaNtoso",
    .obj [("doc",
      .obj [("mainBody", .obj [("tblock", .arr [])]),
            ("conclusions", .obj oneSignatureConclusions)])])]

/-! ## Generated identifiers -/

/-- The kinds of generated identifiers: of a block, its heading and its
paragraph, and of the parts of a signature record. -/
inductive IdKind where
  | block
  | heading
  | para
  | pers
  | role
  | pk
  | pkRef
  | stamp
  | sw
  deriving DecidableEq

/-- The identifier of a kind for the counter value `n`, as the template
literals of lines 94-100, 151-169 and 189 write it. -/
def idString : IdKind → Nat → String
  | .block, n => "tblock_" ++ toString n
  | .heading, n => "tblock_" ++ toString n ++ "__heading"
  | .para, n => "tblock_" ++ toString n ++ "__p_" ++ toString n
  | .pers, n => "conclusion_signature_" ++ toString n ++ "_pers"
  | .role, n => "conclusion_signature_" ++ toString n ++ "_pers_role"
  | .pk, n => "conclusion_signature_" ++ toString n ++ "_pk"
  | .pkRef, n => "conclusion_signature_" ++ toString n ++ "_pk_ref"
  | .stamp, n => "conclusion_signature_" ++ toString n ++ "_timestamp"
  | .sw, n => "conclusion_signature_" ++ toString n ++ "_sw"

/-- Characters of an identifier before the counter. -/
def idPre : IdKind → List Char
  | .block => "tblock_".data
  | .heading => "tblock_".data
  | .para => "tblock_".data
  | _ => "conclusion_signature_".data

/-- Characters of an identifier after the counter. -/
def idSuf : IdKind → Nat → List Char
  | .block, _ => []
  | .heading, _ => "__heading".data
  | .para, n => "__p_".data ++ (toString n).data
  | .pers, _ => "_pers".data
  | .role, _ => "_pers_role".data
  | .pk, _ => "_pk".data
  | .pkRef, _ => "_pk_ref".data
  | .stamp, _ => "_timestamp".data
  | .sw, _ => "_sw".data

/-- The list of characters does not begin with a decimal digit. -/
def startsNonDigit (s : List Char) : Prop := ∀ c, s.head? = some c → c.isDigit = false

/-- The string identifiers a value carries at the given paths. -/
def identifiersAt (paths : List (List String)) (v : JVal) : List String :=
  paths.filterMap (fun p =>
    match readPath v p with
    | .ok (.str s) => some s
    | _ => none)

/-- Where a body block carries identifiers: the block, its heading, its paragraph. -/
def blockIdPaths : List (List String) := [["@eId"], ["heading", "@eId"], ["p", "@eId"]]

/-- Where a signature record carries identifiers: person, role, publicKey,
publicKey ref, timestamp, software object. -/
def recordIdPaths : List (List String) :=
  [["person", "@eId"], ["role", "@eId"], ["publicKey", "@eId"], ["publicKey", "ref", "@eId"],
   ["timestamp", "@eId"], ["object", "@eId"]]

/-- The body blocks of the stored tree. -/
def bodyBlocks (st : St) : List JVal :=
  match readPath st.self.metaAndMain (bodyPath ++ ["tblock"]) with
  | .ok (.arr blocks) => blocks
  | _ => []

/-- The identifiers of an instance: those of the body blocks, their headings
and paragraphs, followed by those of all parts of all ledger records. -/
def generatedIds (st : St) : List String :=
  (bodyBlocks st).flatMap (identifiersAt blockIdPaths) ++
    (ledger st).flatMap (identifiersAt recordIdPaths)

/-- Kinds and counter values of the identifiers of the blocks pushed for a list
of block descriptors, the counter starting at `i`. -/
def blockPairs (i : Nat) : List Block → List (IdKind × Nat)
  | [] => []
  | _ :: bs => (.block, i) :: (.heading, i) :: (.para, i) :: blockPairs (i + 1) bs

/-- Kinds and counter values of the identifiers of the records a sequence of
calls appends when the counter starts at `n`. -/
def recordPairs (n : Nat) : List Call → List (IdKind × Nat)
  | [] => []
  | .addSignature _ _ _ _ _ _ _ _ :: cs =>
    (.pers, n + 1) :: (.role, n + 1) :: (.pk, n + 1) :: (.pkRef, n + 1) :: (.stamp, n + 1) ::
      recordPairs (n + 1) cs
  | .addSwSignature _ _ _ :: cs => (.sw, n + 1) :: recordPairs (n + 1) cs
  | .newAKNDocument _ :: cs => recordPairs n cs
  | .finalize :: cs => recordPairs n cs
  | .finalizeNoConclusions :: cs => recordPairs n cs

/-- Is the kind one of a body block? -/
def IdKind.ofBlock : IdKind → Bool
  | .block => true
  | .heading => true
  | .para => true
  | _ => false

/-- An input whose paragraph content carries the `@eId` `tblock_1`. -/
def collidingInput : DocElements :=
  { identification := { FRBRWork := [], FRBRExpression := [], FRBRManifestation := [] },
    references := [],
    prefaceTitle := .str "Title",
    mainBody := [{ blockTitle := .str "Article 1",
                   p := .obj [("@eId", .str "tblock_1"), ("text", .str "Hello")] }] }

/-- An input whose FRBRWork sub-group supplies the `@date` of `FRBRdate` only:
the skeleton's `FRBRthis` is absent from it, and `FRBRdate` is a field of both,
of which the caller does not supply `@name`. -/
def datedInput : DocElements :=
  { identification :=
      { FRBRWork := [("FRBRdate", .obj [("@date", .str "2021-01-01")])],
        FRBRExpression := [],
        FRBRManifestation := [] },
    references := [],
    prefaceTitle := .str "Title",
    mainBody := [] }

/-- An input with one reference descriptor whose type tag is `toString`, a name
every object inherits from `Object.prototype`. -/
def protoTagInput : DocElements :=
  { identification := { FRBRWork := [], FRBRExpression := [], FRBRManifestation := [] },
    references := [{ type := "toString", eId := .str "ref1", href := .str "/p/x",
                     showAs := .str "X" }],
    prefaceTitle := .str "Title",
    mainBody := [] }

/-! ## Property lists and paths -/

theorem getProp_cons (k k1 : String) (v1 : JVal) (rest : Props) :
    getProp k ((k1, v1) :: rest) = (getProp k rest).or (if k1 = k then some v1 else none) := rfl

theorem getProp_append_single (k k' : String) (v : JVal) (o : Props) :
    getProp k (o ++ [(k', v)]) = if k' = k then some v else getProp k o := by
  induction o with
  | nil => simp [getProp]
  | cons kv rest ih =>
    obtain ⟨k1, v1⟩ := kv
    rw [List.cons_append, getProp_cons, getProp_cons, ih]
    by_cases h : k' = k
    · simp [h]
    · simp [h]

theorem getProp_replaceProp (k k' : String) (v : JVal) (o : Props) :
    getProp k' (replaceProp k v o) =
      if k = k' then (if hasProp k o then some v else none) else getProp k' o := by
  induction o with
  | nil => simp [getProp, replaceProp, hasProp]
  | cons kv rest ih =>
    obtain ⟨k1, v1⟩ := kv
    by_cases h1 : k1 = k
    · subst h1
      rw [replaceProp, if_pos rfl, getProp_cons, ih]
      unfold hasProp
      rw [getProp_cons]
      by_cases h : k1 = k'
      · subst h
        rcases hg : getProp k1 rest with _ | w <;> simp
      · simp [h, getProp_cons]
    · rw [replaceProp, if_neg h1, getProp_cons, ih]
      unfold hasProp
      rw [getProp_cons, getProp_cons]
      by_cases h : k = k'
      · subst h
        rcases hg : getProp k rest with _ | w <;> simp [h1]
      · simp [h]

theorem getProp_setProp (k k' : String) (v : JVal) (o : Props) :
    getProp k' (setProp k v o) = if k = k' then some v else getProp k' o := by
  unfold setProp
  by_cases hp : hasProp k o
  · rw [if_pos hp, getProp_replaceProp]
    simp [hp]
  · rw [if_neg hp, getProp_append_single]

theorem getProp_assignAll (k : String) (es o : Props) :
    getProp k (assignAll o es) = (getProp k es).or (getProp k o) := by
  induction es generalizing o with
  | nil => simp [assignAll, getProp]
  | cons kv rest ih =>
    obtain ⟨k1, v1⟩ := kv
    rw [assignAll, ih, getProp_cons, getProp_setProp]
    rcases hg : getProp k rest with _ | w <;> simp
    by_cases h : k1 = k <;> simp [h]

theorem diverges_append (p q r : List String) (h : diverges p q = true) :
    diverges (p ++ r) q = true := by
  induction p generalizing q with
  | nil => simp [diverges] at h
  | cons a p ih =>
    cases q with
    | nil => simp [diverges] at h
    | cons b q =>
      simp only [List.cons_append, diverges] at h ⊢
      by_cases hab : a = b
      · simp only [hab, if_true] at h ⊢
        exact ih q h
      · simp [hab]

theorem read_assign_same (v v' : JVal) (k : String) (x : JVal)
    (h : v.assign k x = .ok v') : v'.read k = .ok x := by
  cases v <;> simp [JVal.assign] at h
  subst h
  simp [JVal.read, getProp_setProp]

theorem read_assign_other (v v' : JVal) (k k' : String) (x : JVal) (hne : k ≠ k')
    (h : v.assign k x = .ok v') : v'.read k' = v.read k' := by
  cases v <;> simp [JVal.assign] at h
  subst h
  simp [JVal.read, getProp_setProp, hne]

theorem readPath_cons (v : JVal) (k : String) (ks : List String) :
    readPath v (k :: ks) = match v.read k with
      | .ok c => readPath c ks
      | .error e => .error e := rfl

theorem readPath_append (p q : List String) (v : JVal) :
    readPath v (p ++ q) = match readPath v p with
      | .ok c => readPath c q
      | .error e => .error e := by
  induction p generalizing v with
  | nil => simp [readPath]
  | cons a p ih =>
    rw [List.cons_append, readPath_cons, readPath_cons]
    cases v.read a with
    | error e => rfl
    | ok c => exact ih c

theorem readPath_assignPath_frame (ps : List String) (v v' : JVal) (q : List String)
    (k : String) (x : JVal) (hd : diverges (ps ++ [k]) q = true)
    (h : assignPath v ps k x = .ok v') : readPath v' q = readPath v q := by
  induction ps generalizing v v' q with
  | nil =>
    cases q with
    | nil => simp [diverges] at hd
    | cons b q =>
      simp only [List.nil_append, diverges] at hd
      have hkb : k ≠ b := by
        intro hkb
        simp [hkb, diverges] at hd
      simp only [assignPath] at h
      rw [readPath_cons, readPath_cons, read_assign_other v v' k b x hkb h]
  | cons p ps ih =>
    cases q with
    | nil => simp [diverges] at hd
    | cons b q =>
      simp only [List.cons_append, diverges] at hd
      simp only [assignPath] at h
      cases hr : v.read p with
      | error e => simp [hr] at h
      | ok c =>
        simp only [hr] at h
        cases ha : assignPath c ps k x with
        | error e => simp [ha] at h
        | ok c' =>
          simp only [ha] at h
          by_cases hpb : p = b
          · subst hpb
            simp only [if_true] at hd
            rw [readPath_cons, readPath_cons, read_assign_same v v' p c' h, hr]
            exact ih c c' q hd ha
          · rw [readPath_cons, readPath_cons, read_assign_other v v' p b c' hpb h]

theorem assignPath_obj (ps : List String) (v : JVal) (o : Props) (k : String) (x : JVal)
    (h : readPath v ps = .ok (.obj o)) :
    ∃ v', assignPath v ps k x = .ok v' ∧ readPath v' ps = .ok (.obj (setProp k x o)) := by
  induction ps generalizing v with
  | nil =>
    simp only [readPath, Except.ok.injEq] at h
    subst h
    exact ⟨_, rfl, rfl⟩
  | cons p ps ih =>
    rw [readPath_cons] at h
    cases hr : v.read p with
    | error e => simp [hr] at h
    | ok c =>
      simp only [hr] at h
      obtain ⟨c', hc', hread⟩ := ih c h
      cases v with
      | obj ov =>
        refine ⟨.obj (setProp p c' ov), ?_, ?_⟩
        · simp [assignPath, hr, hc', JVal.assign]
        · rw [readPath_cons]
          simp [JVal.read, getProp_setProp, hread]
      | bool b =>
        simp [JVal.read] at hr
        subst hr
        cases ps <;> simp [readPath, JVal.read] at h
      | num n =>
        simp [JVal.read] at hr
        subst hr
        cases ps <;> simp [readPath, JVal.read] at h
      | _ => simp [JVal.read] at hr

theorem mergeField_spec (h : Heap) (g : String) (src : Props) (xml : JVal) (e : String)
    (o : Props) (hobj : readPath xml (identPath g) = .ok (.obj o)) :
    ∃ xml' m, mergeField h g src xml e = .ok xml' ∧
      readPath xml' (identPath g) = .ok (.obj (setProp e (.obj m) o)) ∧
      (∀ f, getProp f m =
        (getProp f (spread h ((getProp e src).getD .undef))).or (subField h o e f)) ∧
      (∀ q, diverges (identPath g) q = true → readPath xml' q = readPath xml q) := by
  unfold mergeField
  rw [hobj]
  simp only [JVal.has, JVal.read]
  cases hget : getProp e o with
  | none =>
    have hhas : hasProp e o = false := by simp [hasProp, hget]
    cases hin : inherited e with
    | false =>
      simp only [hhas, Bool.or_false]
      obtain ⟨xml', hx, hr⟩ := assignPath_obj (identPath g) xml o e
        (spread1 h ((getProp e src).getD .undef)) hobj
      refine ⟨xml', _, hx, hr, ?_, ?_⟩
      · intro f
        simp [getProp_assignAll, subField, hget, getProp]
      · intro q hq
        exact readPath_assignPath_frame _ _ _ _ _ _ (diverges_append _ _ _ hq) hx
    | true =>
      simp only [hhas, Bool.or_true, Option.getD_none]
      obtain ⟨xml', hx, hr⟩ := assignPath_obj (identPath g) xml o e
        (spread2 h .undef ((getProp e src).getD .undef)) hobj
      refine ⟨xml', _, hx, hr, ?_, ?_⟩
      · intro f
        simp [getProp_assignAll, subField, hget, getProp, spread, assignAll]
      · intro q hq
        exact readPath_assignPath_frame _ _ _ _ _ _ (diverges_append _ _ _ hq) hx
  | some t =>
    have hhas : hasProp e o = true := by simp [hasProp, hget]
    simp only [hhas, Bool.true_or, Option.getD_some]
    obtain ⟨xml', hx, hr⟩ := assignPath_obj (identPath g) xml o e
      (spread2 h t ((getProp e src).getD .undef)) hobj
    refine ⟨xml', _, hx, hr, ?_, ?_⟩
    · intro f
      simp [getProp_assignAll, subField, hget, getProp]
    · intro q hq
      exact readPath_assignPath_frame _ _ _ _ _ _ (diverges_append _ _ _ hq) hx

theorem mergeLoop_spec (h : Heap) (g : String) (src : Props) (ks : List String) (xml : JVal)
    (o : Props) (hobj : readPath xml (identPath g) = .ok (.obj o)) :
    ∃ xml' o', forEach (mergeField h g src) ks xml = .ok xml' ∧
      readPath xml' (identPath g) = .ok (.obj o') ∧
      MergedInto h src ks o o' ∧
      (∀ q, diverges (identPath g) q = true → readPath xml' q = readPath xml q) ∧
      (ks = [] → o' = o) := by
  induction ks generalizing xml o with
  | nil =>
    refine ⟨xml, o, rfl, hobj, ⟨fun _ _ => rfl, ?_⟩, fun _ _ => rfl, fun _ => rfl⟩
    intro e he
    simp at he
  | cons e0 ks ih =>
    obtain ⟨xml1, m, h1, hr1, hm, hf1⟩ := mergeField_spec h g src xml e0 o hobj
    obtain ⟨xml', o', h2, hr2, ⟨hout, hin⟩, hf2, _⟩ := ih xml1 _ hr1
    refine ⟨xml', o', ?_, hr2, ⟨?_, ?_⟩, ?_, ?_⟩
    · simp [forEach, h1, h2]
    · intro e he
      simp only [List.mem_cons, not_or] at he
      rw [hout e he.2, getProp_setProp, if_neg (Ne.symm he.1)]
    · intro e he
      by_cases hks : e ∈ ks
      · obtain ⟨m', hm', hsub⟩ := hin e hks
        refine ⟨m', hm', ?_⟩
        intro f
        rw [hsub f]
        by_cases hee : e0 = e
        · subst hee
          have hsf : subField h (setProp e0 (.obj m) o) e0 f = getProp f m := by
            simp [subField, getProp_setProp, spread]
          rw [hsf, hm f]
          cases getProp f (spread h ((getProp e0 src).getD .undef)) <;> simp
        · simp [subField, getProp_setProp, hee]
      · have hee : e = e0 := by
          simp only [List.mem_cons] at he
          rcases he with he | he
          · exact he
          · exact absurd he hks
        subst hee
        refine ⟨m, ?_, hm⟩
        rw [hout e hks, getProp_setProp, if_pos rfl]
    · intro q hq
      rw [hf2 q hq, hf1 q hq]
    · intro hnil
      simp at hnil

theorem getProp_eq_none_iff (k : String) (o : Props) :
    getProp k o = none ↔ k ∉ o.map Prod.fst := by
  induction o with
  | nil => simp [getProp]
  | cons kv rest ih =>
    obtain ⟨k1, v1⟩ := kv
    rw [getProp_cons]
    by_cases h : k1 = k
    · simp [h]
    · simp only [h, if_false, Option.or_none, ih, List.map_cons, List.mem_cons, not_or]
      constructor
      · intro hh
        exact ⟨fun hk => h hk.symm, hh⟩
      · intro hh
        exact hh.2

theorem readPath_snoc_obj (p : List String) (k : String) (xml : JVal) (o : Props)
    (h : readPath xml p = .ok (.obj o)) :
    readPath xml (p ++ [k]) = .ok ((getProp k o).getD .undef) := by
  rw [readPath_append, h]
  rfl

theorem addReference_spec (xml : JVal) (r : Reference) (o : Props)
    (hobj : readPath xml refsPath = .ok (.obj o))
    (hr : (getProp r.type o = none ∧ inherited r.type = false) ∨
      ∃ xs, getProp r.type o = some (.arr xs)) :
    ∃ xml' o', addReference xml r = .ok xml' ∧
      readPath xml' refsPath = .ok (.obj o') ∧
      getProp r.type o' = some (.arr (groupOf o r.type ++ [refEntry r])) ∧
      (∀ k, k ≠ r.type → getProp k o' = getProp k o) ∧
      (∀ q, diverges refsPath q = true → readPath xml' q = readPath xml q) := by
  have hcond : (inherited r.type && !ownAt xml refsPath r.type) = false := by
    rcases hr with ⟨_, hni⟩ | ⟨xs, hxs⟩
    · simp [hni]
    · simp [ownAt, hobj, hasProp, hxs]
  unfold addReference
  simp only [hcond, Bool.false_eq_true, if_false]
  rw [readPath_snoc_obj refsPath r.type xml o hobj]
  rcases hr with ⟨hnone, _⟩ | ⟨xs, hxs⟩
  · simp only [hnone, Option.getD_none]
    obtain ⟨xml1, hx1, hr1⟩ := assignPath_obj refsPath xml o r.type (.arr []) hobj
    simp only [hx1]
    rw [readPath_snoc_obj refsPath r.type xml1 _ hr1]
    simp only [getProp_setProp, if_true, Option.getD_some, List.nil_append]
    obtain ⟨xml2, hx2, hr2⟩ := assignPath_obj refsPath xml1 _ r.type (.arr [refEntry r]) hr1
    refine ⟨xml2, _, hx2, hr2, ?_, ?_, ?_⟩
    · simp [getProp_setProp, groupOf, hnone]
    · intro k hk
      simp [getProp_setProp, Ne.symm hk]
    · intro q hq
      rw [readPath_assignPath_frame _ _ _ _ _ _ (diverges_append _ _ _ hq) hx2,
        readPath_assignPath_frame _ _ _ _ _ _ (diverges_append _ _ _ hq) hx1]
  · simp only [hxs, Option.getD_some]
    rw [readPath_snoc_obj refsPath r.type xml o hobj]
    simp only [hxs, Option.getD_some]
    obtain ⟨xml2, hx2, hr2⟩ := assignPath_obj refsPath xml o r.type
      (.arr (xs ++ [refEntry r])) hobj
    refine ⟨xml2, _, hx2, hr2, ?_, ?_, ?_⟩
    · simp [getProp_setProp, groupOf, hxs]
    · intro k hk
      simp [getProp_setProp, Ne.symm hk]
    · intro q hq
      exact readPath_assignPath_frame _ _ _ _ _ _ (diverges_append _ _ _ hq) hx2

theorem refsLoop_spec (rs : List Reference) (xml : JVal) (o : Props)
    (hobj : readPath xml refsPath = .ok (.obj o)) (hready : RefsReady o rs) :
    ∃ xml' o', forEach addReference rs xml = .ok xml' ∧
      readPath xml' refsPath = .ok (.obj o') ∧
      (∀ t, (∀ r ∈ rs, r.type ≠ t) → getProp t o' = getProp t o) ∧
      (∀ t, (∃ r ∈ rs, r.type = t) → getProp t o' =
        some (.arr (groupOf o t ++ (rs.filter (fun r => r.type = t)).map refEntry))) ∧
      (∀ q, diverges refsPath q = true → readPath xml' q = readPath xml q) := by
  induction rs generalizing xml o with
  | nil =>
    refine ⟨xml, o, rfl, hobj, fun _ _ => rfl, ?_, fun _ _ => rfl⟩
    rintro t ⟨r, hr, _⟩
    simp at hr
  | cons r0 rs ih =>
    obtain ⟨xml1, o1, h1, hr1, hnew, hold, hf1⟩ :=
      addReference_spec xml r0 o hobj (hready r0 (List.mem_cons_self _ _))
    have hready1 : RefsReady o1 rs := by
      intro r hr
      by_cases ht : r.type = r0.type
      · right
        exact ⟨_, by rw [ht, hnew]⟩
      · rw [hold _ ht]
        exact hready r (List.mem_cons_of_mem _ hr)
    obtain ⟨xml', o', h2, hr2, hout, hin, hf2⟩ := ih xml1 o1 hr1 hready1
    refine ⟨xml', o', ?_, hr2, ?_, ?_, ?_⟩
    · simp [forEach, h1, h2]
    · intro t ht
      have h0 : r0.type ≠ t := ht r0 (List.mem_cons_self _ _)
      rw [hout t (fun r hr => ht r (List.mem_cons_of_mem _ hr)), hold t (Ne.symm h0)]
    · rintro t ⟨r, hr, hrt⟩
      by_cases hex : ∃ r' ∈ rs, r'.type = t
      · rw [hin t hex]
        by_cases h0 : r0.type = t
        · subst h0
          simp [groupOf, hnew, List.filter_cons]
        · have hg : groupOf o1 t = groupOf o t := by
            unfold groupOf
            rw [hold t (Ne.symm h0)]
          simp [hg, List.filter_cons, h0]
      · have hnone : ∀ r' ∈ rs, r'.type ≠ t := by
          intro r' hr' he
          exact hex ⟨r', hr', he⟩
        have h0 : r0.type = t := by
          rcases List.mem_cons.mp hr with he | he
          · rw [← he]; exact hrt
          · exact absurd hrt (hnone r he)
        subst h0
        rw [hout _ hnone, hnew]
        have hfil : rs.filter (fun r => r.type = r0.type) = [] := by
          rw [List.filter_eq_nil_iff]
          intro a ha
          simpa using hnone a ha
        simp [List.filter_cons, hfil]
    · intro q hq
      rw [hf2 q hq, hf1 q hq]

theorem pushBlocks_spec (h : Heap) (bs : List Block) (i : Nat) (xml : JVal) (o : Props)
    (xs : List JVal) (hobj : readPath xml bodyPath = .ok (.obj o))
    (hxs : getProp "tblock" o = some (.arr xs)) :
    ∃ xml' o', pushBlocks h bs i xml = .ok xml' ∧
      readPath xml' bodyPath = .ok (.obj o') ∧
      getProp "tblock" o' = some (.arr (xs ++ blocksFrom h i bs)) ∧
      (∀ q, diverges bodyPath q = true → readPath xml' q = readPath xml q) := by
  induction bs generalizing i xml o xs with
  | nil => exact ⟨xml, o, rfl, hobj, by simp [blocksFrom, hxs], fun _ _ => rfl⟩
  | cons b bs ih =>
    obtain ⟨xml1, hx1, hr1⟩ := assignPath_obj bodyPath xml o "tblock"
      (.arr (xs ++ [tblock h i b])) hobj
    obtain ⟨xml', o', h2, hr2, hget, hf2⟩ := ih (i + 1) xml1 _ (xs ++ [tblock h i b]) hr1
      (by simp [getProp_setProp])
    refine ⟨xml', o', ?_, hr2, ?_, ?_⟩
    · unfold pushBlocks
      rw [readPath_snoc_obj bodyPath "tblock" xml o hobj]
      simp only [hxs, Option.getD_some, hx1, h2]
    · simp [hget, blocksFrom]
    · intro q hq
      rw [hf2 q hq, readPath_assignPath_frame _ _ _ _ _ _ (diverges_append _ _ _ hq) hx1]

theorem blocksFrom_length (h : Heap) (i : Nat) (bs : List Block) :
    (blocksFrom h i bs).length = bs.length := by
  induction bs generalizing i with
  | nil => rfl
  | cons b bs ih => simp [blocksFrom, ih]

theorem blocksFrom_get (h : Heap) (i : Nat) (bs : List Block) (k : Nat) :
    (blocksFrom h i bs)[k]? = (bs[k]?).map (fun b => tblock h (i + k) b) := by
  induction bs generalizing i k with
  | nil => simp [blocksFrom]
  | cons b bs ih =>
    cases k with
    | zero => simp [blocksFrom]
    | succ k =>
      simp only [blocksFrom, List.getElem?_cons_succ, ih]
      congr 1
      funext b'
      congr 1
      omega

theorem buildDocument_spec (tm : Templates) (h : Heap) (d : DocElements)
    (hv : Assemblable tm h d) : ∃ tree, buildDocument tm h d = .ok tree ∧ Built tm h d tree := by
  obtain ⟨oW, hoW⟩ := hv.groups "FRBRWork" (by simp)
  obtain ⟨oE, hoE⟩ := hv.groups "FRBRExpression" (by simp)
  obtain ⟨oM, hoM⟩ := hv.groups "FRBRManifestation" (by simp)
  obtain ⟨oR, hoR, hready⟩ := hv.refs
  obtain ⟨oT, hoT⟩ := hv.title
  obtain ⟨oB, hoB⟩ := hv.body
  obtain ⟨x1, oW', h1, hW1, hmW, hf1, heW⟩ :=
    mergeLoop_spec h "FRBRWork" d.identification.FRBRWork
      (d.identification.FRBRWork.map Prod.fst) _ oW hoW
  obtain ⟨x2, oE', h2, hE2, hmE, hf2, heE⟩ :=
    mergeLoop_spec h "FRBRExpression" d.identification.FRBRExpression
      (d.identification.FRBRExpression.map Prod.fst) x1 oE
      (by rw [hf1 _ (by decide)]; exact hoE)
  obtain ⟨x3, oM', h3, hM3, hmM, hf3, heM⟩ :=
    mergeLoop_spec h "FRBRManifestation" d.identification.FRBRManifestation
      (d.identification.FRBRManifestation.map Prod.fst) x2 oM
      (by rw [hf2 _ (by decide), hf1 _ (by decide)]; exact hoM)
  obtain ⟨x4, oR', h4, hR4, hRout, hRin, hf4⟩ := refsLoop_spec d.references x3 oR
    (by rw [hf3 _ (by decide), hf2 _ (by decide), hf1 _ (by decide)]; exact hoR) hready
  obtain ⟨x5, h5, hT5⟩ := assignPath_obj titlePath x4 oT "p" d.prefaceTitle
    (by rw [hf4 _ (by decide), hf3 _ (by decide), hf2 _ (by decide), hf1 _ (by decide)]
        exact hoT)
  have hf5 : ∀ q, diverges titlePath q = true → readPath x5 q = readPath x4 q :=
    fun q hq => readPath_assignPath_frame _ _ _ _ _ _ (diverges_append _ _ _ hq) h5
  obtain ⟨x6, h6, hB6⟩ := assignPath_obj bodyPath x5 oB "tblock" (.arr [])
    (by rw [hf5 _ (by decide), hf4 _ (by decide), hf3 _ (by decide), hf2 _ (by decide),
          hf1 _ (by decide)]
        exact hoB)
  have hf6 : ∀ q, diverges bodyPath q = true → readPath x6 q = readPath x5 q :=
    fun q hq => readPath_assignPath_frame _ _ _ _ _ _ (diverges_append _ _ _ hq) h6
  obtain ⟨x7, oB', h7, hB7, hblocks, hf7⟩ := pushBlocks_spec h d.mainBody 1 x6 _ []
    hB6 (by simp [getProp_setProp])
  refine ⟨x7, ?_, ?_⟩
  · unfold buildDocument mergeGroup
    simp only [hv.plain, h1, h2, h3, h4, h5, h6, h7]
  · constructor
    · intro g src hg
      simp only [callerGroups, List.mem_cons, Prod.mk.injEq, List.mem_singleton,
        List.not_mem_nil, or_false] at hg
      rcases hg with ⟨rfl, rfl⟩ | ⟨rfl, rfl⟩ | ⟨rfl, rfl⟩
      · refine ⟨oW, oW', hoW, ?_, hmW, ?_⟩
        · rw [hf7 _ (by decide), hf6 _ (by decide), hf5 _ (by decide), hf4 _ (by decide),
            hf3 _ (by decide), hf2 _ (by decide)]
          exact hW1
        · intro hnil
          exact heW (by simp [hnil])
      · refine ⟨oE, oE', hoE, ?_, hmE, ?_⟩
        · rw [hf7 _ (by decide), hf6 _ (by decide), hf5 _ (by decide), hf4 _ (by decide),
            hf3 _ (by decide)]
          exact hE2
        · intro hnil
          exact heE (by simp [hnil])
      · refine ⟨oM, oM', hoM, ?_, hmM, ?_⟩
        · rw [hf7 _ (by decide), hf6 _ (by decide), hf5 _ (by decide), hf4 _ (by decide)]
          exact hM3
        · intro hnil
          exact heM (by simp [hnil])
    · refine ⟨oR, oR', hoR, ?_, hRout, hRin⟩
      rw [hf7 _ (by decide), hf6 _ (by decide), hf5 _ (by decide)]
      exact hR4
    · rw [hf7 _ (by decide), hf6 _ (by decide),
        readPath_snoc_obj titlePath "p" x5 _ hT5]
      simp [getProp_setProp]
    · rw [readPath_snoc_obj bodyPath "tblock" x7 _ hB7, hblocks]
      simp
    · intro q hq
      simp only [untouched, Bool.and_eq_true] at hq
      obtain ⟨⟨⟨⟨⟨q1, q2⟩, q3⟩, q4⟩, q5⟩, q6⟩ := hq
      rw [hf7 q q6, hf6 q q6, hf5 q q5, hf4 q q4, hf3 q q3, hf2 q q2, hf1 q q1]

theorem digitChar_value (m : Nat) (hm : m < 10) : (Nat.digitChar m).toNat - 48 = m := by
  interval_cases m <;> rfl

theorem foldl_toDigitsCore (fuel n : Nat) (ds : List Char) (hn : n < fuel) :
    (Nat.toDigitsCore 10 fuel n ds).foldl (fun acc c => 10 * acc + (c.toNat - 48)) 0 =
      ds.foldl (fun acc c => 10 * acc + (c.toNat - 48)) n := by
  induction fuel generalizing n ds with
  | zero => omega
  | succ fuel ih =>
    unfold Nat.toDigitsCore
    simp only
    by_cases h0 : n / 10 = 0
    · simp only [h0, if_true, List.foldl_cons]
      have hlt : n < 10 := by omega
      rw [digitChar_value _ (Nat.mod_lt _ (by decide)), Nat.mod_eq_of_lt hlt]
      simp
    · simp only [h0, if_false]
      rw [ih (n / 10) _ (by omega)]
      simp only [List.foldl_cons]
      rw [digitChar_value _ (Nat.mod_lt _ (by decide))]
      congr 1
      omega

theorem decimalValue_repr (n : Nat) : decimalValue (toString n).data = n := by
  show decimalValue (Nat.repr n).data = n
  unfold decimalValue Nat.repr Nat.toDigits
  simp only [List.asString]
  rw [foldl_toDigitsCore _ _ _ (Nat.lt_succ_self n)]
  rfl

theorem toString_nat_injective (m n : Nat) (h : toString m = toString n) : m = n := by
  have := congrArg (fun s => decimalValue s.data) h
  simpa [decimalValue_repr] using this

theorem append_left_cancel (p a b : String) (h : p ++ a = p ++ b) : a = b := by
  have hd := congrArg String.data h
  simp only [String.data_append] at hd
  exact String.ext (List.append_cancel_left hd)

theorem blockId_injective (m n : Nat)
    (h : "tblock_" ++ toString m = "tblock_" ++ toString n) : m = n :=
  toString_nat_injective m n (append_left_cancel _ _ _ h)

theorem blocksFrom_ids (h : Heap) (i : Nat) (bs : List Block) :
    (blocksFrom h i bs).map (fun b => b.read "@eId") =
      (List.range bs.length).map
        (fun k => Except.ok (JVal.str ("tblock_" ++ toString (i + k)))) := by
  induction bs generalizing i with
  | nil => rfl
  | cons b bs ih =>
    rw [blocksFrom, List.map_cons, ih, List.length_cons, List.range_succ_eq_map, List.map_cons,
      List.map_map]
    congr 1
    apply List.map_congr_left
    intro k _
    simp only [Function.comp]
    congr 3
    congr 1
    omega

theorem blockIds_nodup (i n : Nat) :
    ((List.range n).map
      (fun k => (Except.ok (JVal.str ("tblock_" ++ toString (i + k))) : Except Err JVal))).Nodup := by
  apply List.Nodup.map _ (List.nodup_range n)
  intro a b hab
  simp only [Except.ok.injEq, JVal.str.injEq] at hab
  have := blockId_injective _ _ hab
  omega

/-! ## Assembly -/

theorem stdTemplates_assemblable_at (h : Heap) (d : DocElements)
    (hd : ∀ r ∈ d.references, r.type ≠ "@source" ∧ inherited r.type = false) :
    Assemblable stdTemplates h d := by
  refine ⟨rfl, ?_, ⟨_, rfl, ?_⟩, ⟨_, rfl⟩, ⟨_, rfl⟩⟩
  · intro g hg
    simp only [List.mem_cons, List.mem_singleton, List.not_mem_nil, or_false] at hg
    rcases hg with rfl | rfl | rfl <;> exact ⟨_, rfl⟩
  · intro r hr
    left
    obtain ⟨hne, hni⟩ := hd r hr
    exact ⟨by simp [getProp, Ne.symm hne], hni⟩

theorem stdTemplates_assemblable (d : DocElements)
    (hd : ∀ r ∈ d.references, r.type ≠ "@source" ∧ inherited r.type = false) :
    Assemblable stdTemplates freshHeap d :=
  stdTemplates_assemblable_at freshHeap d hd

theorem scenarioInput_assemblable_at (h : Heap) : Assemblable stdTemplates h scenarioInput :=
  stdTemplates_assemblable_at h scenarioInput (by
    intro r hr
    simp only [scenarioInput, List.mem_singleton] at hr
    subst hr
    exact ⟨by decide, by decide⟩)

theorem scenarioInput_assemblable : Assemblable stdTemplates freshHeap scenarioInput :=
  scenarioInput_assemblable_at freshHeap

/-- C1: for every construction input that newAKNDocument can assemble, with n
block descriptors in mainBody, the call returns and the body of the stored tree
has exactly n tblock entries whose identifiers are, in input order,
tblock_1 .. tblock_n; these n identifiers are pairwise distinct. -/
theorem newAKNDocument_block_identifiers (tm : Templates) (st : St) (d : DocElements)
    (hv : Assemblable tm st.heap d) :
    ∃ st' blocks, newAKNDocument tm d st = .ret () st' ∧
      readPath st'.self.metaAndMain (bodyPath ++ ["tblock"]) = .ok (.arr blocks) ∧
      blocks.length = d.mainBody.length ∧
      blocks.map (fun b => b.read "@eId") =
        (List.range d.mainBody.length).map
          (fun k => Except.ok (JVal.str ("tblock_" ++ toString (k + 1)))) ∧
      (blocks.map (fun b => b.read "@eId")).Nodup := by
  obtain ⟨tree, hb, hbuilt⟩ := buildDocument_spec tm st.heap d hv
  have hids := blocksFrom_ids st.heap 1 d.mainBody
  have hfun : (fun k => (Except.ok (JVal.str ("tblock_" ++ toString (1 + k))) : Except Err JVal))
      = (fun k => Except.ok (JVal.str ("tblock_" ++ toString (k + 1)))) := by
    funext k
    rw [Nat.add_comm]
  refine ⟨{ st with self := { st.self with metaAndMain := tree } }, _, ?_, hbuilt.body,
    blocksFrom_length _ _ _, ?_, ?_⟩
  · simp [newAKNDocument, hb]
  · rw [hids, hfun]
  · rw [hids]
    exact blockIds_nodup 1 _

theorem newAKNDocument_block_identifiers_witness :
    Assemblable stdTemplates freshState.heap scenarioInput ∧
    ∃ st' blocks, newAKNDocument stdTemplates scenarioInput freshState = .ret () st' ∧
      readPath st'.self.metaAndMain (bodyPath ++ ["tblock"]) = .ok (.arr blocks) ∧
      blocks.length = scenarioInput.mainBody.length ∧
      blocks.map (fun b => b.read "@eId") =
        (List.range scenarioInput.mainBody.length).map
          (fun k => Except.ok (JVal.str ("tblock_" ++ toString (k + 1)))) ∧
      (blocks.map (fun b => b.read "@eId")).Nodup :=
  ⟨scenarioInput_assemblable,
   newAKNDocument_block_identifiers stdTemplates freshState scenarioInput
     scenarioInput_assemblable⟩

/-- C2, as the claim states it, fails: with the paragraph content
`{"@eId": "custom", text: "Hello"}` the paragraph of the first block carries the
identifier `custom`, not the generated `tblock_1__p_1`. -/
theorem paragraph_identifier_overridden :
    ∃ tree blk para, buildDocument stdTemplates freshHeap ownIdInput = .ok tree ∧
      readPath tree (bodyPath ++ ["tblock"]) = .ok (.arr [blk]) ∧
      blk.read "p" = .ok (.obj para) ∧
      getProp "@eId" para = some (.str "custom") ∧
      getProp "@eId" para ≠ some (.str "tblock_1__p_1") := by
  refine ⟨_, _, _, rfl, rfl, rfl, rfl, ?_⟩
  simp [getProp, assignAll, setProp, hasProp, replaceProp, spread, ownIdInput]

/-- C2 (amended): for every construction input that newAKNDocument can
assemble and every block descriptor at position k+1 with title t and paragraph
content p, the block at that position has the identifier tblock_(k+1), a heading
with identifier tblock_(k+1)__heading and text t, and a paragraph whose
identifier is the `@eId` of p when p has one and the generated
tblock_(k+1)__p_(k+1) otherwise, and whose other fields are exactly those of p. -/
theorem newAKNDocument_block_content (tm : Templates) (st : St) (d : DocElements)
    (k : Nat) (b : Block) (hv : Assemblable tm st.heap d) (hb : d.mainBody[k]? = some b) :
    ∃ st' blocks blk para, newAKNDocument tm d st = .ret () st' ∧
      readPath st'.self.metaAndMain (bodyPath ++ ["tblock"]) = .ok (.arr blocks) ∧
      blocks[k]? = some blk ∧
      blk.read "@eId" = .ok (.str ("tblock_" ++ toString (k + 1))) ∧
      readPath blk ["heading", "@eId"] =
        .ok (.str ("tblock_" ++ toString (k + 1) ++ "__heading")) ∧
      readPath blk ["heading", "#"] = .ok b.blockTitle ∧
      blk.read "p" = .ok (.obj para) ∧
      getProp "@eId" para = (getProp "@eId" (spread st.heap b.p)).or
        (some (.str ("tblock_" ++ toString (k + 1) ++ "__p_" ++ toString (k + 1)))) ∧
      ∀ f, f ≠ "@eId" → getProp f para = getProp f (spread st.heap b.p) := by
  obtain ⟨tree, hbd, hbuilt⟩ := buildDocument_spec tm st.heap d hv
  refine ⟨{ st with self := { st.self with metaAndMain := tree } }, _, tblock st.heap (1 + k) b,
    _, ?_, hbuilt.body, ?_, ?_, ?_, ?_, rfl, ?_, ?_⟩
  · simp [newAKNDocument, hbd]
  · rw [blocksFrom_get, hb]
    rfl
  · rw [Nat.add_comm]
    simp [tblock, JVal.read, getProp]
  · rw [Nat.add_comm]
    simp [tblock, readPath, JVal.read, getProp]
  · simp [tblock, readPath, JVal.read, getProp]
  · rw [Nat.add_comm 1 k, getProp_assignAll]
    simp [getProp]
  · intro f hf
    rw [getProp_assignAll]
    simp [getProp, Ne.symm hf]

theorem newAKNDocument_block_content_witness :
    (Assemblable stdTemplates freshState.heap scenarioInput ∧
      scenarioInput.mainBody[0]? =
        some { blockTitle := .str "Article 1", p := .obj [("text", .str "Hello")] }) ∧
    ∃ st' blocks blk para, newAKNDocument stdTemplates scenarioInput freshState = .ret () st' ∧
      readPath st'.self.metaAndMain (bodyPath ++ ["tblock"]) = .ok (.arr blocks) ∧
      blocks[0]? = some blk ∧
      blk.read "@eId" = .ok (.str ("tblock_" ++ toString (0 + 1))) ∧
      readPath blk ["heading", "@eId"] =
        .ok (.str ("tblock_" ++ toString (0 + 1) ++ "__heading")) ∧
      readPath blk ["heading", "#"] = .ok (.str "Article 1") ∧
      blk.read "p" = .ok (.obj para) ∧
      getProp "@eId" para =
        (getProp "@eId" (spread freshState.heap (.obj [("text", .str "Hello")]))).or
          (some (.str ("tblock_" ++ toString (0 + 1) ++ "__p_" ++ toString (0 + 1)))) ∧
      ∀ f, f ≠ "@eId" →
        getProp f para = getProp f (spread freshState.heap (.obj [("text", .str "Hello")])) :=
  ⟨⟨scenarioInput_assemblable, rfl⟩,
   newAKNDocument_block_content stdTemplates freshState scenarioInput 0
     { blockTitle := .str "Article 1", p := .obj [("text", .str "Hello")] }
     scenarioInput_assemblable rfl⟩

/-! ## Signatures -/

theorem stdTemplates_ledgerSkeleton : LedgerSkeleton stdTemplates ledgerAddr :=
  ⟨_, rfl, rfl⟩

theorem ensureConclusions_spec (tm : Templates) (a : Nat) (st : St)
    (hT : LedgerSkeleton tm a) (hS : LedgerState a st.self.conclusions) :
    ∃ o, ensureConclusions tm st =
        .ret () { st with self := { st.self with conclusions := .obj o } } ∧
      getProp "signature" o = some (.ref a) := by
  obtain ⟨ot, hread, hsig⟩ := hT
  rcases hS with hnew | ⟨o, ho, hget⟩
  · refine ⟨assignAll [] ot, ?_, ?_⟩
    · simp [ensureConclusions, hnew, JVal.keys, spread, hread, spread1]
    · rw [getProp_assignAll, hsig]
      rfl
  · refine ⟨o, ?_, hget⟩
    have hne : o ≠ [] := by
      intro hnil
      simp [hnil, getProp] at hget
    have hlen : ¬ o.length = 0 := by
      intro hl
      exact hne (List.length_eq_zero.mp hl)
    cases st with
    | mk heap self =>
      cases self with
      | mk mm c n =>
        simp only at ho
        subst ho
        simp [ensureConclusions, JVal.keys, spread, hlen]

theorem pushSignature_spec (mk : Nat → JVal) (a : Nat) (st : St) (o : Props)
    (ho : st.self.conclusions = .obj o) (hget : getProp "signature" o = some (.ref a)) :
    pushSignature mk st = .ret ()
      { heap := Function.update st.heap a (st.heap a ++ [mk (st.self.signaturesNum + 1)]),
        self := { st.self with signaturesNum := st.self.signaturesNum + 1 } } := by
  simp [pushSignature, ho, JVal.read, hget]

/-- What both appends do, for the record builder `mk` of either. -/
theorem append_spec (tm : Templates) (mk : Nat → JVal) (a : Nat) (st : St)
    (hT : LedgerSkeleton tm a) (hS : LedgerState a st.self.conclusions) :
    ∃ st' o, (match ensureConclusions tm st with
        | .thrown e s => Outcome.thrown e s
        | .ret _ s => pushSignature mk s) = .ret () st' ∧
      st'.self.signaturesNum = st.self.signaturesNum + 1 ∧
      st'.heap a = st.heap a ++ [mk (st.self.signaturesNum + 1)] ∧
      (∀ b, b ≠ a → st'.heap b = st.heap b) ∧
      st'.self.metaAndMain = st.self.metaAndMain ∧
      st'.self.conclusions = .obj o ∧ getProp "signature" o = some (.ref a) := by
  obtain ⟨o, he, hget⟩ := ensureConclusions_spec tm a st hT hS
  rw [he]
  simp only
  rw [pushSignature_spec mk a _ o rfl hget]
  refine ⟨_, o, rfl, rfl, ?_, ?_, rfl, rfl, hget⟩
  · simp
  · intro b hb
    simp [Function.update, hb]

theorem ledger_of_ledgerState (a : Nat) (st : St) (o : Props)
    (ho : st.self.conclusions = .obj o) (hget : getProp "signature" o = some (.ref a)) :
    ledger st = st.heap a := by
  simp [ledger, ho, JVal.read, hget]

theorem newAKNDocument_frame (tm : Templates) (d : DocElements) (st : St) :
    (newAKNDocument tm d st).st.heap = st.heap ∧
    (newAKNDocument tm d st).st.self.conclusions = st.self.conclusions ∧
    (newAKNDocument tm d st).st.self.signaturesNum = st.self.signaturesNum := by
  unfold newAKNDocument
  cases buildDocument tm st.heap d <;> simp [Outcome.st]

theorem finalizeNoConclusions_frame (st : St) : (finalizeNoConclusions st).st = st := by
  unfold finalizeNoConclusions
  cases st.self.metaAndMain.keys st.heap with
  | error e => rfl
  | ok ks =>
    simp only
    split
    · rfl
    · cases jsonClone st.heap st.self.metaAndMain <;> rfl

theorem finalize_frame (st : St) :
    (finalize st).st.heap = st.heap ∧
    (finalize st).st.self.conclusions = st.self.conclusions ∧
    (finalize st).st.self.signaturesNum = st.self.signaturesNum := by
  unfold finalize
  cases st.self.metaAndMain.keys st.heap with
  | error e => simp [Outcome.st]
  | ok ks =>
    simp only
    split
    · simp [Outcome.st]
    · cases st.self.conclusions.keys st.heap with
      | error e => simp [Outcome.st]
      | ok cs =>
        simp only
        split
        · cases assignPath st.self.metaAndMain ["akomaNtoso", "doc"] "conclusions"
            (spread1 st.heap st.self.conclusions) <;> simp [Outcome.st]
        · simp [Outcome.st]

/-- The ledger and the counter along any sequence of calls. -/
theorem run_ledger (tm : Templates) (a : Nat) (cs : List Call) (st : St)
    (hT : LedgerSkeleton tm a) (hS : LedgerState a st.self.conclusions) :
    (run tm cs st).heap a = st.heap a ++ recordsFrom st.self.signaturesNum cs ∧
    (run tm cs st).self.signaturesNum = st.self.signaturesNum + appendCount cs ∧
    LedgerState a (run tm cs st).self.conclusions := by
  induction cs generalizing st with
  | nil => simp [run, recordsFrom, appendCount, hS]
  | cons c cs ih =>
    cases c with
    | newAKNDocument d =>
      obtain ⟨hh, hc, hn⟩ := newAKNDocument_frame tm d st
      have := ih ((Call.newAKNDocument d).exec tm st) (by simpa [Call.exec, hc] using hS)
      simpa [run, recordsFrom, appendCount, Call.exec, Call.isAppend, hh, hn] using this
    | finalize =>
      obtain ⟨hh, hc, hn⟩ := finalize_frame st
      have := ih (Call.finalize.exec tm st) (by simpa [Call.exec, hc] using hS)
      simpa [run, recordsFrom, appendCount, Call.exec, Call.isAppend, hh, hn] using this
    | finalizeNoConclusions =>
      have hfr := finalizeNoConclusions_frame st
      have := ih (Call.finalizeNoConclusions.exec tm st) (by simpa [Call.exec, hfr] using hS)
      simpa [run, recordsFrom, appendCount, Call.exec, Call.isAppend, hfr] using this
    | addSignature e1 e2 e3 e4 e5 e6 e7 e8 =>
      obtain ⟨st', o, hret, hn, hh, _, _, hc, hget⟩ :=
        append_spec tm (fun n => humanRecord n e1 e2 e3 e4 e5 e6 e7 e8) a st hT hS
      have hexec : (Call.addSignature e1 e2 e3 e4 e5 e6 e7 e8).exec tm st = st' := by
        simp only [Call.exec, addSignature]
        rw [hret]
        rfl
      obtain ⟨i1, i2, i3⟩ := ih st' (Or.inr ⟨o, hc, hget⟩)
      refine ⟨?_, ?_, ?_⟩
      · simp only [run, hexec, i1, hh, hn, recordsFrom, List.append_assoc, List.singleton_append]
      · simp only [run, hexec, i2, hn, appendCount, List.filter_cons, Call.isAppend, if_true,
          List.length_cons]
        omega
      · simpa only [run, hexec] using i3
    | addSwSignature e1 e2 e3 =>
      obtain ⟨st', o, hret, hn, hh, _, _, hc, hget⟩ :=
        append_spec tm (fun n => swRecord n e1 e2 e3) a st hT hS
      have hexec : (Call.addSwSignature e1 e2 e3).exec tm st = st' := by
        simp only [Call.exec, addSwSignature]
        rw [hret]
        rfl
      obtain ⟨i1, i2, i3⟩ := ih st' (Or.inr ⟨o, hc, hget⟩)
      refine ⟨?_, ?_, ?_⟩
      · simp only [run, hexec, i1, hh, hn, recordsFrom, List.append_assoc, List.singleton_append]
      · simp only [run, hexec, i2, hn, appendCount, List.filter_cons, Call.isAppend, if_true,
          List.length_cons]
        omega
      · simpa only [run, hexec] using i3

/-- The ledger of a new instance after a sequence of signature appends, when
the array of the conclusions skeleton is still empty at construction: one record
per call, in call order, numbered from 1. -/
theorem ledger_when_skeleton_untouched (tm : Templates) (a : Nat) (cs : List Call) (h0 : Heap)
    (hT : LedgerSkeleton tm a) (hfresh : h0 a = [])
    (happ : ∀ c ∈ cs, c.isAppend = true) :
    ledger (run tm cs { heap := h0, self := AKNDoc.new }) = recordsFrom 0 cs ∧
    (ledger (run tm cs { heap := h0, self := AKNDoc.new })).length = cs.length := by
  obtain ⟨h1, h2, h3⟩ := run_ledger tm a cs { heap := h0, self := AKNDoc.new } hT (Or.inl rfl)
  have hl : ledger (run tm cs { heap := h0, self := AKNDoc.new }) = recordsFrom 0 cs := by
    rcases h3 with hnew | ⟨o, ho, hget⟩
    · cases cs with
      | nil => rfl
      | cons c cs =>
        exfalso
        have key : ∀ (cs : List Call) (st : St), (∀ c ∈ cs, c.isAppend = true) → cs ≠ [] →
            LedgerState a st.self.conclusions → (run tm cs st).self.conclusions ≠ .obj [] := by
          intro cs
          induction cs with
          | nil => intro st _ hne; exact absurd rfl hne
          | cons c cs ih =>
            intro st hall _ hS
            have hstep : ∃ o, (c.exec tm st).self.conclusions = .obj o ∧
                getProp "signature" o = some (.ref a) := by
              cases c with
              | addSignature e1 e2 e3 e4 e5 e6 e7 e8 =>
                obtain ⟨st', o, hret, _, _, _, _, hc, hget⟩ :=
                  append_spec tm (fun n => humanRecord n e1 e2 e3 e4 e5 e6 e7 e8) a st hT hS
                refine ⟨o, ?_, hget⟩
                simp only [Call.exec, addSignature]
                rw [hret]
                exact hc
              | addSwSignature e1 e2 e3 =>
                obtain ⟨st', o, hret, _, _, _, _, hc, hget⟩ :=
                  append_spec tm (fun n => swRecord n e1 e2 e3) a st hT hS
                refine ⟨o, ?_, hget⟩
                simp only [Call.exec, addSwSignature]
                rw [hret]
                exact hc
              | newAKNDocument d => simpa [Call.isAppend] using hall _ (List.mem_cons_self _ _)
              | finalize => simpa [Call.isAppend] using hall _ (List.mem_cons_self _ _)
              | finalizeNoConclusions =>
                simpa [Call.isAppend] using hall _ (List.mem_cons_self _ _)
            obtain ⟨o, ho, hget⟩ := hstep
            cases cs with
            | nil =>
              simp only [run, ho]
              intro hcontra
              simp only [JVal.obj.injEq] at hcontra
              simp [hcontra, getProp] at hget
            | cons c' cs' =>
              exact ih (c.exec tm st) (fun x hx => hall x (List.mem_cons_of_mem _ hx))
                (List.cons_ne_nil _ _) (Or.inr ⟨o, ho, hget⟩)
        exact key (c :: cs) _ happ (List.cons_ne_nil _ _) (Or.inl rfl) hnew
    · rw [ledger_of_ledgerState a _ o ho hget, h1]
      show h0 a ++ recordsFrom 0 cs = recordsFrom 0 cs
      rw [hfresh]
      rfl
  refine ⟨hl, ?_⟩
  rw [hl]
  clear hl h1 h2 h3
  generalize (0 : Nat) = n
  induction cs generalizing n with
  | nil => rfl
  | cons c cs ih =>
    have hc := happ c (List.mem_cons_self _ _)
    have hrest := fun n => ih (fun x hx => happ x (List.mem_cons_of_mem _ hx)) n
    cases c with
    | addSignature e1 e2 e3 e4 e5 e6 e7 e8 => simp [recordsFrom, hrest]
    | addSwSignature e1 e2 e3 => simp [recordsFrom, hrest]
    | newAKNDocument d => simp [Call.isAppend] at hc
    | finalize => simp [Call.isAppend] at hc
    | finalizeNoConclusions => simp [Call.isAppend] at hc

/-- C3 fails on the code: a newly constructed instance of a module in which
another instance has appended one signature holds, after one append of its
own, a ledger of two records, and both carry the sequence number 1. -/
theorem second_instance_ledger_not_its_own :
    secondInstance.self.signaturesNum = 0 ∧
    ledger (run stdTemplates [botSignature] secondInstance) =
      [swRecord 1 (.str "sw1") (.str "Notary-bot") (.str "c2lnMg=="),
       swRecord 1 (.str "sw1") (.str "Notary-bot") (.str "c2lnMg==")] ∧
    (ledger (run stdTemplates [botSignature] secondInstance)).length ≠ [botSignature].length := by
  refine ⟨rfl, rfl, ?_⟩
  decide

/-- C4: in every state reached from a new instance by calls of the five
methods, with the signature counter at c, addSignature returns, sets the counter
to n = c+1 and appends as last ledger entry a record whose person, role,
publicKey, publicKey ref and timestamp carry the identifiers
conclusion_signature_n_pers, _pers_role, _pk, _pk_ref, _timestamp with the same
n, and the references, texts, key, date and signature given as arguments. -/
theorem addSignature_record (tm : Templates) (a : Nat) (cs : List Call) (h0 : Heap)
    (eId name roleEId roleName publicKeyHref publicKey timestamp signature : JVal)
    (hT : LedgerSkeleton tm a) :
    ∃ st' record,
      addSignature tm eId name roleEId roleName publicKeyHref publicKey timestamp signature
        (run tm cs { heap := h0, self := AKNDoc.new }) = .ret () st' ∧
      st'.self.signaturesNum = (run tm cs { heap := h0, self := AKNDoc.new }).self.signaturesNum + 1 ∧
      ledger st' = (run tm cs { heap := h0, self := AKNDoc.new }).heap a ++ [record] ∧
      readPath record ["person", "@eId"] = .ok (.str ("conclusion_signature_"
        ++ toString st'.self.signaturesNum ++ "_pers")) ∧
      readPath record ["person", "@refersTo"] = .ok eId ∧
      readPath record ["person", "#"] = .ok name ∧
      readPath record ["role", "@eId"] = .ok (.str ("conclusion_signature_"
        ++ toString st'.self.signaturesNum ++ "_pers_role")) ∧
      readPath record ["role", "@refersTo"] = .ok roleEId ∧
      readPath record ["role", "#"] = .ok roleName ∧
      readPath record ["publicKey", "@eId"] = .ok (.str ("conclusion_signature_"
        ++ toString st'.self.signaturesNum ++ "_pk")) ∧
      readPath record ["publicKey", "ref", "@eId"] = .ok (.str ("conclusion_signature_"
        ++ toString st'.self.signaturesNum ++ "_pk_ref")) ∧
      readPath record ["publicKey", "ref", "@href"] = .ok publicKeyHref ∧
      readPath record ["publicKey", "ref", "#"] = .ok publicKey ∧
      readPath record ["timestamp", "@eId"] = .ok (.str ("conclusion_signature_"
        ++ toString st'.self.signaturesNum ++ "_timestamp")) ∧
      readPath record ["timestamp", "@date"] = .ok timestamp ∧
      readPath record ["digitalSignature"] = .ok signature := by
  obtain ⟨_, _, hS⟩ := run_ledger tm a cs { heap := h0, self := AKNDoc.new } hT (Or.inl rfl)
  obtain ⟨st', o, hret, hn, hh, _, _, hc, hget⟩ :=
    append_spec tm
      (fun n => humanRecord n eId name roleEId roleName publicKeyHref publicKey timestamp signature)
      a _ hT hS
  refine ⟨st', humanRecord ((run tm cs { heap := h0, self := AKNDoc.new }).self.signaturesNum + 1)
    eId name roleEId roleName publicKeyHref publicKey timestamp signature, hret, hn, ?_, ?_⟩
  · rw [ledger_of_ledgerState a st' o hc hget, hh]
  · rw [hn]
    refine ⟨rfl, rfl, rfl, rfl, rfl, rfl, rfl, rfl, rfl, rfl, rfl, rfl, rfl⟩

theorem addSignature_record_witness :
    LedgerSkeleton stdTemplates ledgerAddr ∧
    ∃ st' record,
      addSignature stdTemplates (.str "sig1") (.str "Alice") (.str "role1") (.str "Signer")
        (.str "/keys/alice") (.str "MIIB") (.str "2021-01-01") (.str "c2lnMQ==")
        (run stdTemplates [.newAKNDocument scenarioInput]
          { heap := freshHeap, self := AKNDoc.new }) = .ret () st' ∧
      st'.self.signaturesNum = (run stdTemplates [.newAKNDocument scenarioInput]
          { heap := freshHeap, self := AKNDoc.new }).self.signaturesNum + 1 ∧
      ledger st' = (run stdTemplates [.newAKNDocument scenarioInput]
          { heap := freshHeap, self := AKNDoc.new }).heap ledgerAddr ++ [record] ∧
      readPath record ["person", "@eId"] = .ok (.str ("conclusion_signature_"
        ++ toString st'.self.signaturesNum ++ "_pers")) ∧
      readPath record ["person", "@refersTo"] = .ok (.str "sig1") ∧
      readPath record ["person", "#"] = .ok (.str "Alice") ∧
      readPath record ["role", "@eId"] = .ok (.str ("conclusion_signature_"
        ++ toString st'.self.signaturesNum ++ "_pers_role")) ∧
      readPath record ["role", "@refersTo"] = .ok (.str "role1") ∧
      readPath record ["role", "#"] = .ok (.str "Signer") ∧
      readPath record ["publicKey", "@eId"] = .ok (.str ("conclusion_signature_"
        ++ toString st'.self.signaturesNum ++ "_pk")) ∧
      readPath record ["publicKey", "ref", "@eId"] = .ok (.str ("conclusion_signature_"
        ++ toString st'.self.signaturesNum ++ "_pk_ref")) ∧
      readPath record ["publicKey", "ref", "@href"] = .ok (.str "/keys/alice") ∧
      readPath record ["publicKey", "ref", "#"] = .ok (.str "MIIB") ∧
      readPath record ["timestamp", "@eId"] = .ok (.str ("conclusion_signature_"
        ++ toString st'.self.signaturesNum ++ "_timestamp")) ∧
      readPath record ["timestamp", "@date"] = .ok (.str "2021-01-01") ∧
      readPath record ["digitalSignature"] = .ok (.str "c2lnMQ==") :=
  ⟨stdTemplates_ledgerSkeleton,
   addSignature_record stdTemplates ledgerAddr [.newAKNDocument scenarioInput] freshHeap
     (.str "sig1") (.str "Alice") (.str "role1") (.str "Signer")
     (.str "/keys/alice") (.str "MIIB") (.str "2021-01-01") (.str "c2lnMQ==")
     stdTemplates_ledgerSkeleton⟩

/-- C5: human and software signatures consume one counter: in every state
reached from a new instance by a sequence of calls of which k are signature
appends of either kind, addSwSignature returns and appends as last ledger entry
a record whose object has the identifier conclusion_signature_(k+1)_sw, the
reference eId and the text name, and whose digitalSignature is signature. -/
theorem addSwSignature_record (tm : Templates) (a : Nat) (cs : List Call) (h0 : Heap)
    (eId name signature : JVal) (hT : LedgerSkeleton tm a) :
    ∃ st' record,
      addSwSignature tm eId name signature (run tm cs { heap := h0, self := AKNDoc.new }) =
        .ret () st' ∧
      ledger st' = (run tm cs { heap := h0, self := AKNDoc.new }).heap a ++ [record] ∧
      readPath record ["object", "@eId"] = .ok (.str ("conclusion_signature_"
        ++ toString (appendCount cs + 1) ++ "_sw")) ∧
      readPath record ["object", "@refersTo"] = .ok eId ∧
      readPath record ["object", "#"] = .ok name ∧
      readPath record ["digitalSignature"] = .ok signature := by
  obtain ⟨_, hcount, hS⟩ := run_ledger tm a cs { heap := h0, self := AKNDoc.new } hT (Or.inl rfl)
  obtain ⟨st', o, hret, hn, hh, _, _, hc, hget⟩ :=
    append_spec tm (fun n => swRecord n eId name signature) a _ hT hS
  refine ⟨st', swRecord ((run tm cs { heap := h0, self := AKNDoc.new }).self.signaturesNum + 1)
    eId name signature, hret, ?_, ?_⟩
  · rw [ledger_of_ledgerState a st' o hc hget, hh]
  · rw [hcount]
    simp only [AKNDoc.new, Nat.zero_add]
    refine ⟨rfl, rfl, rfl, rfl⟩

theorem addSwSignature_record_witness :
    (LedgerSkeleton stdTemplates ledgerAddr ∧
      "conclusion_signature_" ++ toString (appendCount [aliceSignature] + 1) ++ "_sw"
        = "conclusion_signature_2_sw") ∧
    ∃ st' record,
      addSwSignature stdTemplates (.str "sw1") (.str "Notary-bot") (.str "c2lnMg==")
        (run stdTemplates [aliceSignature] { heap := freshHeap, self := AKNDoc.new }) =
        .ret () st' ∧
      ledger st' = (run stdTemplates [aliceSignature]
        { heap := freshHeap, self := AKNDoc.new }).heap ledgerAddr ++ [record] ∧
      readPath record ["object", "@eId"] = .ok (.str ("conclusion_signature_"
        ++ toString (appendCount [aliceSignature] + 1) ++ "_sw")) ∧
      readPath record ["object", "@refersTo"] = .ok (.str "sw1") ∧
      readPath record ["object", "#"] = .ok (.str "Notary-bot") ∧
      readPath record ["digitalSignature"] = .ok (.str "c2lnMg==") :=
  ⟨⟨stdTemplates_ledgerSkeleton, by decide⟩,
   addSwSignature_record stdTemplates ledgerAddr [aliceSignature] freshHeap
     (.str "sw1") (.str "Notary-bot") (.str "c2lnMg==") stdTemplates_ledgerSkeleton⟩

/-- C6 fails on the code: on an instance with an assembled document and one
signature on which finalize has been called, the tree finalizeNoConclusions
hands to the wire-format engine contains the conclusions section with the
signature; it is the tree finalize hands over, conclusions included. -/
theorem payload_after_finalize_has_conclusions :
    (∃ t, payloadTree signedState = some t ∧ readPath t conclusionsPath = .ok .undef) ∧
    (∃ t, payloadTree finalizedState = some t ∧
      readPath t conclusionsPath = .ok (.obj [("signature",
        .arr [swRecord 1 (.str "sw1") (.str "Notary-bot") (.str "c2lnMg==")])]) ∧
      fullTree finalizedState = some t) :=
  ⟨⟨_, rfl, rfl⟩, ⟨_, rfl, rfl, rfl⟩⟩

/-- C7 fails on the code: finalize on an instance with a signature changes the
document tree of the instance; before the call metaAndMain has no conclusions
field, after the call it holds the conclusions section and its signature array. -/
theorem finalize_writes_into_metaAndMain :
    readPath signedState.self.metaAndMain conclusionsPath = .ok .undef ∧
    readPath (finalize signedState).st.self.metaAndMain conclusionsPath =
      .ok (.obj [("signature", .ref ledgerAddr)]) ∧
    (finalize signedState).st.self.metaAndMain ≠ signedState.self.metaAndMain := by
  refine ⟨rfl, rfl, ?_⟩
  intro h
  have h2 := congrArg (fun t => readPath t conclusionsPath) h
  have h3 : readPath (finalize signedState).st.self.metaAndMain conclusionsPath =
      .ok (.obj [("signature", .ref ledgerAddr)]) := rfl
  have h4 : readPath signedState.self.metaAndMain conclusionsPath = .ok .undef := rfl
  simp only [h3, h4] at h2
  simp at h2

/-- C8 fails on the code: on an assembled instance on which finalize has been
called after a first signature, a further signature append changes the tree
finalizeNoConclusions hands to the wire-format engine: the signature list in it
has one record before the append and two after it. -/
theorem payload_changes_with_later_signature :
    (∃ t, payloadTree finalizedState = some t ∧
      readPath t (conclusionsPath ++ ["signature"]) =
        .ok (.arr [swRecord 1 (.str "sw1") (.str "Notary-bot") (.str "c2lnMg==")])) ∧
    (∃ t, payloadTree (run stdTemplates [aliceSignature] finalizedState) = some t ∧
      readPath t (conclusionsPath ++ ["signature"]) =
        .ok (.arr [swRecord 1 (.str "sw1") (.str "Notary-bot") (.str "c2lnMg=="),
          humanRecord 2 (.str "sig1") (.str "Alice") (.str "role1") (.str "Signer")
            (.str "/keys/alice") (.str "MIIB") (.str "2021-01-01") (.str "c2lnMQ==")])) ∧
    payloadTree (run stdTemplates [aliceSignature] finalizedState) ≠ payloadTree finalizedState := by
  refine ⟨⟨_, rfl, rfl⟩, ⟨_, rfl, rfl⟩, ?_⟩
  intro h
  have h2 := congrArg (fun t => t.bind (fun v =>
    (readPath v (conclusionsPath ++ ["signature"])).toOption)) h
  have h3 : (payloadTree finalizedState).bind (fun v =>
      (readPath v (conclusionsPath ++ ["signature"])).toOption) =
      some (.arr [swRecord 1 (.str "sw1") (.str "Notary-bot") (.str "c2lnMg==")]) := rfl
  have h4 : (payloadTree (run stdTemplates [aliceSignature] finalizedState)).bind (fun v =>
      (readPath v (conclusionsPath ++ ["signature"])).toOption) =
      some (.arr [swRecord 1 (.str "sw1") (.str "Notary-bot") (.str "c2lnMg=="),
          humanRecord 2 (.str "sig1") (.str "Alice") (.str "role1") (.str "Signer")
            (.str "/keys/alice") (.str "MIIB") (.str "2021-01-01") (.str "c2lnMQ==")]) := rfl
  simp only [h3, h4] at h2
  simp at h2

/-! ## Identification merge -/

theorem getD_of_getProp (e : String) (src : Props) (s : JVal) (h : getProp e src = some s) :
    (getProp e src).getD .undef = s := by
  rw [h]
  rfl

theorem mem_keys_of_getProp (e : String) (src : Props) (s : JVal)
    (h : getProp e src = some s) : e ∈ src.map Prod.fst := by
  by_contra hne
  rw [(getProp_eq_none_iff e src).mpr hne] at h
  exact Option.noConfusion h

theorem mergeInput_assemblable : Assemblable mergeTemplates freshHeap mergeInput := by
  refine ⟨rfl, ?_, ⟨_, rfl, ?_⟩, ⟨_, rfl⟩, ⟨_, rfl⟩⟩
  · intro g hg
    simp only [List.mem_cons, List.mem_singleton, List.not_mem_nil, or_false] at hg
    rcases hg with rfl | rfl | rfl <;> exact ⟨_, rfl⟩
  · intro r hr
    simp [mergeInput] at hr

/-- C9: merging the caller's identification into the skeleton loses no
skeleton data: for each of FRBRWork, FRBRExpression and FRBRManifestation, with
skeleton sub-group o, caller sub-group src and assembled sub-group o', every
field absent from src has in o' the value it has in o; for a field of both,
every sub-field the caller does not supply keeps its skeleton value; and an
empty src leaves the sub-group as it is in the skeleton. -/
theorem merge_keeps_skeleton_data (tm : Templates) (st : St) (d : DocElements)
    (g : String) (src : Props) (hv : Assemblable tm st.heap d)
    (hg : (g, src) ∈ callerGroups d) :
    ∃ st' o o', newAKNDocument tm d st = .ret () st' ∧
      readPath tm.metaAndMainTemplate (identPath g) = .ok (.obj o) ∧
      readPath st'.self.metaAndMain (identPath g) = .ok (.obj o') ∧
      (∀ e, getProp e src = none → getProp e o' = getProp e o) ∧
      (∀ e s t, getProp e src = some s → getProp e o = some t →
        ∃ m, getProp e o' = some (.obj m) ∧
          ∀ f, getProp f (spread st.heap s) = none →
            getProp f m = getProp f (spread st.heap t)) ∧
      (src = [] → o' = o) := by
  obtain ⟨tree, hb, hbuilt⟩ := buildDocument_spec tm st.heap d hv
  obtain ⟨o, o', ho, ho', ⟨hout, hin⟩, hnil⟩ := hbuilt.groups g src hg
  refine ⟨{ st with self := { st.self with metaAndMain := tree } }, o, o', ?_, ho, ho', ?_, ?_,
    hnil⟩
  · simp [newAKNDocument, hb]
  · intro e he
    exact hout e ((getProp_eq_none_iff e src).mp he)
  · intro e s t hs ht
    obtain ⟨m, hm, hsub⟩ := hin e (mem_keys_of_getProp e src s hs)
    refine ⟨m, hm, ?_⟩
    intro f hf
    rw [hsub f, getD_of_getProp e src s hs, hf]
    simp [subField, ht]

theorem datedInput_assemblable : Assemblable stdTemplates freshHeap datedInput :=
  stdTemplates_assemblable datedInput (by
    intro r hr
    simp [datedInput] at hr)

theorem merge_keeps_skeleton_data_witness :
    (Assemblable stdTemplates freshState.heap datedInput ∧
      ("FRBRWork", [("FRBRdate", JVal.obj [("@date", .str "2021-01-01")])]) ∈
        callerGroups datedInput ∧
      readPath stdTemplates.metaAndMainTemplate (identPath "FRBRWork") =
        .ok (.obj [("FRBRthis", .obj [("@value", .str "")]),
                   ("FRBRdate", .obj [("@date", .str ""), ("@name", .str "")])]) ∧
      readPath (newAKNDocument stdTemplates datedInput freshState).st.self.metaAndMain
          (identPath "FRBRWork") =
        .ok (.obj [("FRBRthis", .obj [("@value", .str "")]),
                   ("FRBRdate", .obj [("@date", .str "2021-01-01"), ("@name", .str "")])])) ∧
    ∃ st' o o', newAKNDocument stdTemplates datedInput freshState = .ret () st' ∧
      readPath stdTemplates.metaAndMainTemplate (identPath "FRBRWork") = .ok (.obj o) ∧
      readPath st'.self.metaAndMain (identPath "FRBRWork") = .ok (.obj o') ∧
      (∀ e, getProp e [("FRBRdate", JVal.obj [("@date", .str "2021-01-01")])] = none →
        getProp e o' = getProp e o) ∧
      (∀ e s t, getProp e [("FRBRdate", JVal.obj [("@date", .str "2021-01-01")])] = some s →
        getProp e o = some t →
        ∃ m, getProp e o' = some (.obj m) ∧
          ∀ f, getProp f (spread freshState.heap s) = none →
            getProp f m = getProp f (spread freshState.heap t)) ∧
      (([("FRBRdate", JVal.obj [("@date", .str "2021-01-01")])] : Props) = [] → o' = o) :=
  ⟨⟨datedInput_assemblable, by simp [callerGroups, datedInput], rfl, rfl⟩,
   merge_keeps_skeleton_data stdTemplates freshState datedInput "FRBRWork"
     [("FRBRdate", JVal.obj [("@date", .str "2021-01-01")])]
     datedInput_assemblable (by simp [callerGroups, datedInput])⟩

/-- C10: the identification merge is two-level with the caller winning: for
each of the three sub-groups and every field e of the caller's sub-group, the
assembled sub-group holds under e an object; when the skeleton sub-group has e,
each sub-field of that object has the caller's value if the caller's e has
the sub-field (whatever that value is, it is taken whole) and the skeleton's
value otherwise; when the skeleton sub-group lacks e, the object has exactly
the caller's sub-fields. -/
theorem merge_two_level (tm : Templates) (st : St) (d : DocElements)
    (g : String) (src : Props) (hv : Assemblable tm st.heap d)
    (hg : (g, src) ∈ callerGroups d) :
    ∃ st' o o', newAKNDocument tm d st = .ret () st' ∧
      readPath tm.metaAndMainTemplate (identPath g) = .ok (.obj o) ∧
      readPath st'.self.metaAndMain (identPath g) = .ok (.obj o') ∧
      ∀ e s, getProp e src = some s →
        ∃ m, getProp e o' = some (.obj m) ∧
          (∀ t, getProp e o = some t → ∀ f,
            getProp f m = (getProp f (spread st.heap s)).or (getProp f (spread st.heap t))) ∧
          (getProp e o = none → ∀ f, getProp f m = getProp f (spread st.heap s)) := by
  obtain ⟨tree, hb, hbuilt⟩ := buildDocument_spec tm st.heap d hv
  obtain ⟨o, o', ho, ho', ⟨_, hin⟩, _⟩ := hbuilt.groups g src hg
  refine ⟨{ st with self := { st.self with metaAndMain := tree } }, o, o', ?_, ho, ho', ?_⟩
  · simp [newAKNDocument, hb]
  · intro e s hs
    obtain ⟨m, hm, hsub⟩ := hin e (mem_keys_of_getProp e src s hs)
    refine ⟨m, hm, ?_, ?_⟩
    · intro t ht f
      rw [hsub f, getD_of_getProp e src s hs]
      simp [subField, ht]
    · intro hnone f
      rw [hsub f, getD_of_getProp e src s hs]
      simp [subField, hnone]

theorem merge_two_level_witness :
    (Assemblable mergeTemplates freshState.heap mergeInput ∧
      ("FRBRWork", [("a", JVal.obj [("x", .num 1)])]) ∈ callerGroups mergeInput ∧
      (newAKNDocument mergeTemplates mergeInput freshState).val? = some () ∧
      readPath (newAKNDocument mergeTemplates mergeInput freshState).st.self.metaAndMain
        (identPath "FRBRWork") = .ok (.obj [("a", .obj [("y", .num 2), ("x", .num 1)])])) ∧
    ∃ st' o o', newAKNDocument mergeTemplates mergeInput freshState = .ret () st' ∧
      readPath mergeTemplates.metaAndMainTemplate (identPath "FRBRWork") = .ok (.obj o) ∧
      readPath st'.self.metaAndMain (identPath "FRBRWork") = .ok (.obj o') ∧
      ∀ e s, getProp e [("a", JVal.obj [("x", .num 1)])] = some s →
        ∃ m, getProp e o' = some (.obj m) ∧
          (∀ t, getProp e o = some t → ∀ f,
            getProp f m = (getProp f (spread freshState.heap s)).or
              (getProp f (spread freshState.heap t))) ∧
          (getProp e o = none → ∀ f, getProp f m = getProp f (spread freshState.heap s)) :=
  ⟨⟨mergeInput_assemblable, by simp [callerGroups, mergeInput], rfl, rfl⟩,
   merge_two_level mergeTemplates freshState mergeInput "FRBRWork"
     [("a", JVal.obj [("x", .num 1)])] mergeInput_assemblable
     (by simp [callerGroups, mergeInput])⟩

/-! ## Payload and references -/

mutual
theorem jsonCopy_heap_irrelevant (h h' : Heap) :
    ∀ v : JVal, refFree v = true → jsonCopy h v = jsonCopy h' v
  | .obj o, hf => by
    simp only [jsonCopy]
    rw [jsonCopyProps_heap_irrelevant h h' o (by simpa [refFree] using hf)]
  | .arr xs, hf => by
    simp only [jsonCopy]
    rw [jsonCopyElems_heap_irrelevant h h' xs (by simpa [refFree] using hf)]
  | .ref _, hf => by simp [refFree] at hf
  | .undef, _ => rfl
  | .null, _ => rfl
  | .bool _, _ => rfl
  | .num _, _ => rfl
  | .str _, _ => rfl
theorem jsonCopyProps_heap_irrelevant (h h' : Heap) :
    ∀ o : Props, refFreeProps o = true → jsonCopyProps h o = jsonCopyProps h' o
  | [], _ => rfl
  | (k, v) :: rest, hf => by
    simp only [refFreeProps, Bool.and_eq_true] at hf
    have h1 := jsonCopy_heap_irrelevant h h' v hf.1
    have h2 := jsonCopyProps_heap_irrelevant h h' rest hf.2
    cases v <;> simp [jsonCopyProps, h2] <;> simpa using h1
theorem jsonCopyElems_heap_irrelevant (h h' : Heap) :
    ∀ xs : List JVal, refFreeElems xs = true → jsonCopyElems h xs = jsonCopyElems h' xs
  | [], _ => rfl
  | v :: rest, hf => by
    simp only [refFreeElems, Bool.and_eq_true] at hf
    have h1 := jsonCopy_heap_irrelevant h h' v hf.1
    have h2 := jsonCopyElems_heap_irrelevant h h' rest hf.2
    cases v <;> simp [jsonCopyElems, h2] <;> simpa using h1
end

theorem payloadTree_heap_irrelevant (h h' : Heap) (self : AKNDoc)
    (hf : refFree self.metaAndMain = true) :
    payloadTree { heap := h, self := self } = payloadTree { heap := h', self := self } := by
  have hk : self.metaAndMain.keys h = self.metaAndMain.keys h' := by
    cases hm : self.metaAndMain <;> simp [JVal.keys, spread]
    simp [hm, refFree] at hf
  have hc : jsonClone h self.metaAndMain = jsonClone h' self.metaAndMain := by
    cases hm : self.metaAndMain <;> simp only [jsonClone]
    all_goals (rw [hm] at hf; rw [jsonCopy_heap_irrelevant h h' _ hf])
  simp only [payloadTree, finalizeNoConclusions, hk, hc]
  cases self.metaAndMain.keys h' with
  | error e => rfl
  | ok ks =>
    simp only
    split
    · rfl
    · cases jsonClone h' self.metaAndMain <;> rfl

/-- While the stored tree holds no reference to the ledger array (as long as
finalize has not written the conclusions into it), signature appends leave the
payload tree as it is. -/
theorem payload_unchanged_while_tree_unshared (tm : Templates) (a : Nat) (cs : List Call)
    (st : St) (hT : LedgerSkeleton tm a) (hS : LedgerState a st.self.conclusions)
    (hf : refFree st.self.metaAndMain = true) (happ : ∀ c ∈ cs, c.isAppend = true) :
    payloadTree (run tm cs st) = payloadTree st := by
  induction cs generalizing st with
  | nil => rfl
  | cons c cs ih =>
    have hrest : ∀ x ∈ cs, x.isAppend = true := fun x hx => happ x (List.mem_cons_of_mem _ hx)
    have hc := happ c (List.mem_cons_self _ _)
    have hstep : ∃ st' o, c.exec tm st = st' ∧ st'.self.metaAndMain = st.self.metaAndMain ∧
        st'.self.conclusions = .obj o ∧ getProp "signature" o = some (.ref a) := by
      cases c with
      | addSignature e1 e2 e3 e4 e5 e6 e7 e8 =>
        obtain ⟨st', o, hret, _, _, _, hmm, hcc, hget⟩ :=
          append_spec tm (fun n => humanRecord n e1 e2 e3 e4 e5 e6 e7 e8) a st hT hS
        refine ⟨st', o, ?_, hmm, hcc, hget⟩
        simp only [Call.exec, addSignature]
        rw [hret]
        rfl
      | addSwSignature e1 e2 e3 =>
        obtain ⟨st', o, hret, _, _, _, hmm, hcc, hget⟩ :=
          append_spec tm (fun n => swRecord n e1 e2 e3) a st hT hS
        refine ⟨st', o, ?_, hmm, hcc, hget⟩
        simp only [Call.exec, addSwSignature]
        rw [hret]
        rfl
      | newAKNDocument d => simp [Call.isAppend] at hc
      | finalize => simp [Call.isAppend] at hc
      | finalizeNoConclusions => simp [Call.isAppend] at hc
    obtain ⟨st', o, hexec, hmm, hcc, hget⟩ := hstep
    simp only [run, hexec]
    rw [ih st' (Or.inr ⟨o, hcc, hget⟩) (by rw [hmm]; exact hf) hrest]
    have e1 : payloadTree st' = payloadTree { heap := st.heap, self := st'.self } :=
      payloadTree_heap_irrelevant st'.heap st.heap st'.self (by rw [hmm]; exact hf)
    rw [e1]
    simp only [payloadTree, finalizeNoConclusions, hmm]
    cases st.self.metaAndMain.keys st.heap with
    | error e => rfl
    | ok ks =>
      simp only
      split
      · rfl
      · cases jsonClone st.heap st.self.metaAndMain <;> rfl

/-! ## References -/

/-- C11, as the claim states it, fails: for a reference descriptor of type
`toString` the lookup of line 74 finds the member inherited from
`Object.prototype`, no group is created, the push of line 78 throws a TypeError
and the instance is left without a document tree. -/
theorem inherited_type_tag_throws :
    inherited "toString" = true ∧
    newAKNDocument stdTemplates protoTagInput freshState = .thrown .typeError freshState ∧
    (newAKNDocument stdTemplates protoTagInput freshState).st.self.metaAndMain = .obj [] :=
  ⟨by decide, rfl, rfl⟩

/-- C11 (amended): for every construction input that newAKNDocument can
assemble, that is whose reference type tags name neither a member inherited
from `Object.prototype` nor a field of the skeleton's references collection
other than a list, and every type tag T occurring among its reference
descriptors, the references collection of the stored tree holds under T a list:
the entries the skeleton already lists under T (none when the skeleton has no
field T, in which case the group is created) followed by one entry for each
descriptor of type T and for no other, in input order, each entry carrying that
descriptor's eId, href and showAs. -/
theorem references_grouped_by_type (tm : Templates) (st : St) (d : DocElements) (T : String)
    (hv : Assemblable tm st.heap d) (hT : ∃ r ∈ d.references, r.type = T) :
    ∃ st' o o', newAKNDocument tm d st = .ret () st' ∧
      readPath tm.metaAndMainTemplate refsPath = .ok (.obj o) ∧
      readPath st'.self.metaAndMain refsPath = .ok (.obj o') ∧
      getProp T o' = some (.arr (groupOf o T ++
        (d.references.filter (fun r => r.type = T)).map
          (fun r => JVal.obj [("@eId", r.eId), ("@href", r.href), ("@showAs", r.showAs)]))) ∧
      (getProp T o = none → getProp T o' = some (.arr
        ((d.references.filter (fun r => r.type = T)).map
          (fun r => JVal.obj [("@eId", r.eId), ("@href", r.href), ("@showAs", r.showAs)])))) := by
  obtain ⟨tree, hb, hbuilt⟩ := buildDocument_spec tm st.heap d hv
  obtain ⟨o, o', ho, ho', _, hin⟩ := hbuilt.refs
  have hget := hin T hT
  refine ⟨{ st with self := { st.self with metaAndMain := tree } }, o, o', ?_, ho, ho', hget, ?_⟩
  · simp [newAKNDocument, hb]
  · intro hnone
    rw [hget]
    simp [groupOf, hnone, refEntry]

theorem references_grouped_by_type_witness :
    (Assemblable stdTemplates freshState.heap scenarioInput ∧
      ∃ r ∈ scenarioInput.references, r.type = "TLCPerson") ∧
    ∃ st' o o', newAKNDocument stdTemplates scenarioInput freshState = .ret () st' ∧
      readPath stdTemplates.metaAndMainTemplate refsPath = .ok (.obj o) ∧
      readPath st'.self.metaAndMain refsPath = .ok (.obj o') ∧
      getProp "TLCPerson" o' = some (.arr (groupOf o "TLCPerson" ++
        (scenarioInput.references.filter (fun r => r.type = "TLCPerson")).map
          (fun r => JVal.obj [("@eId", r.eId), ("@href", r.href), ("@showAs", r.showAs)]))) ∧
      (getProp "TLCPerson" o = none → getProp "TLCPerson" o' = some (.arr
        ((scenarioInput.references.filter (fun r => r.type = "TLCPerson")).map
          (fun r => JVal.obj [("@eId", r.eId), ("@href", r.href), ("@showAs", r.showAs)])))) :=
  ⟨⟨scenarioInput_assemblable, ⟨_, List.mem_singleton.mpr rfl, rfl⟩⟩,
   references_grouped_by_type stdTemplates freshState scenarioInput "TLCPerson"
     scenarioInput_assemblable ⟨_, List.mem_singleton.mpr rfl, rfl⟩⟩

/-! ## Instance invariants -/

theorem exec_present_nonempty (tm : Templates) (a : Nat) (c : Call) (st : St)
    (hT : LedgerSkeleton tm a)
    (hI : st.self.conclusions = .obj [] ∨
      ∃ o, st.self.conclusions = .obj o ∧ getProp "signature" o = some (.ref a) ∧
        st.heap a ≠ []) :
    (c.exec tm st).self.conclusions = .obj [] ∨
      ∃ o, (c.exec tm st).self.conclusions = .obj o ∧ getProp "signature" o = some (.ref a) ∧
        (c.exec tm st).heap a ≠ [] := by
  have hS : LedgerState a st.self.conclusions := by
    rcases hI with h | ⟨o, ho, hg, _⟩
    · exact Or.inl h
    · exact Or.inr ⟨o, ho, hg⟩
  cases c with
  | newAKNDocument d =>
    obtain ⟨hh, hc, _⟩ := newAKNDocument_frame tm d st
    simpa only [Call.exec, hh, hc] using hI
  | finalize =>
    obtain ⟨hh, hc, _⟩ := finalize_frame st
    simpa only [Call.exec, hh, hc] using hI
  | finalizeNoConclusions =>
    have hfr := finalizeNoConclusions_frame st
    simpa only [Call.exec, hfr] using hI
  | addSignature e1 e2 e3 e4 e5 e6 e7 e8 =>
    obtain ⟨st', o, hret, _, hh, _, _, hc, hget⟩ :=
      append_spec tm (fun n => humanRecord n e1 e2 e3 e4 e5 e6 e7 e8) a st hT hS
    have hexec : (Call.addSignature e1 e2 e3 e4 e5 e6 e7 e8).exec tm st = st' := by
      simp only [Call.exec, addSignature]
      rw [hret]
      rfl
    rw [hexec]
    exact Or.inr ⟨o, hc, hget, by rw [hh]; simp⟩
  | addSwSignature e1 e2 e3 =>
    obtain ⟨st', o, hret, _, hh, _, _, hc, hget⟩ :=
      append_spec tm (fun n => swRecord n e1 e2 e3) a st hT hS
    have hexec : (Call.addSwSignature e1 e2 e3).exec tm st = st' := by
      simp only [Call.exec, addSwSignature]
      rw [hret]
      rfl
    rw [hexec]
    exact Or.inr ⟨o, hc, hget, by rw [hh]; simp⟩

theorem run_present_nonempty (tm : Templates) (a : Nat) (cs : List Call) (st : St)
    (hT : LedgerSkeleton tm a)
    (hI : st.self.conclusions = .obj [] ∨
      ∃ o, st.self.conclusions = .obj o ∧ getProp "signature" o = some (.ref a) ∧
        st.heap a ≠ []) :
    (run tm cs st).self.conclusions = .obj [] ∨
      ∃ o, (run tm cs st).self.conclusions = .obj o ∧ getProp "signature" o = some (.ref a) ∧
        (run tm cs st).heap a ≠ [] := by
  induction cs generalizing st with
  | nil => exact hI
  | cons c cs ih => exact ih (c.exec tm st) (exec_present_nonempty tm a c st hT hI)

/-- C18: in every state reached from a new instance by any sequence of
newAKNDocument, addSignature, addSwSignature, finalize and
finalizeNoConclusions calls, the conclusions of the instance is the empty
object or an object holding the signature ledger with at least one record. -/
theorem conclusions_absent_or_populated (tm : Templates) (a : Nat) (cs : List Call)
    (h0 : Heap) (hT : LedgerSkeleton tm a) :
    (run tm cs { heap := h0, self := AKNDoc.new }).self.conclusions = .obj [] ∨
      ∃ o, (run tm cs { heap := h0, self := AKNDoc.new }).self.conclusions = .obj o ∧
        getProp "signature" o = some (.ref a) ∧
        ledger (run tm cs { heap := h0, self := AKNDoc.new }) ≠ [] := by
  rcases run_present_nonempty tm a cs { heap := h0, self := AKNDoc.new } hT (Or.inl rfl) with
    h | ⟨o, ho, hg, hne⟩
  · exact Or.inl h
  · exact Or.inr ⟨o, ho, hg, by rw [ledger_of_ledgerState a _ o ho hg]; exact hne⟩

theorem conclusions_absent_or_populated_witness :
    LedgerSkeleton stdTemplates ledgerAddr ∧
    ((run stdTemplates [.newAKNDocument scenarioInput, botSignature, .finalize]
        { heap := freshHeap, self := AKNDoc.new }).self.conclusions = .obj [] ∨
      ∃ o, (run stdTemplates [.newAKNDocument scenarioInput, botSignature, .finalize]
          { heap := freshHeap, self := AKNDoc.new }).self.conclusions = .obj o ∧
        getProp "signature" o = some (.ref ledgerAddr) ∧
        ledger (run stdTemplates [.newAKNDocument scenarioInput, botSignature, .finalize]
          { heap := freshHeap, self := AKNDoc.new }) ≠ []) :=
  ⟨stdTemplates_ledgerSkeleton,
   conclusions_absent_or_populated stdTemplates ledgerAddr
     [.newAKNDocument scenarioInput, botSignature, .finalize] freshHeap
     stdTemplates_ledgerSkeleton⟩

/-- C17 fails on the code: the conclusions skeleton is changed by a signature
append.  When the module is loaded its signature list is empty; after one
append on one instance the skeleton lists that record, and the first signature
appended to another new instance yields a ledger of two records. -/
theorem conclusions_skeleton_mutated :
    resolve freshHeap stdTemplates.conclTemplate =
      .obj [("conclusions", .obj [("signature", .arr [])])] ∧
    resolve (run stdTemplates [aliceSignature] freshState).heap stdTemplates.conclTemplate =
      .obj [("conclusions", .obj [("signature",
        .arr [humanRecord 1 (.str "sig1") (.str "Alice") (.str "role1") (.str "Signer")
          (.str "/keys/alice") (.str "MIIB") (.str "2021-01-01") (.str "c2lnMQ==")])])] ∧
    (ledger (run stdTemplates [botSignature]
      { heap := (run stdTemplates [aliceSignature] freshState).heap,
        self := AKNDoc.new })).length = 2 :=
  ⟨rfl, rfl, rfl⟩

/-! ## Repeated assembly -/

theorem readPath_snoc_inv (p : List String) (k : String) (v x : JVal)
    (h : readPath v (p ++ [k]) = .ok x) (hx : x ≠ .undef) :
    ∃ o, readPath v p = .ok (.obj o) ∧ getProp k o = some x := by
  rw [readPath_append] at h
  cases hr : readPath v p with
  | error e => simp [hr] at h
  | ok c =>
    simp only [hr, readPath_cons] at h
    cases c with
    | obj o =>
      refine ⟨o, rfl, ?_⟩
      simp only [JVal.read, readPath, Except.ok.injEq] at h
      cases hg : getProp k o with
      | none =>
        rw [hg] at h
        exact absurd h.symm hx
      | some w =>
        rw [hg] at h
        simpa using h
    | bool b =>
      simp only [JVal.read, readPath, Except.ok.injEq] at h
      exact absurd h.symm hx
    | num n =>
      simp only [JVal.read, readPath, Except.ok.injEq] at h
      exact absurd h.symm hx
    | _ => simp [JVal.read] at h

theorem getProp_resolveProps (h : Heap) (k : String) (o : Props) :
    getProp k (resolveProps h o) = (getProp k o).map (resolve h) := by
  induction o with
  | nil => rfl
  | cons kv rest ih =>
    obtain ⟨k1, v1⟩ := kv
    rw [resolveProps, getProp_cons, getProp_cons, ih]
    cases getProp k rest with
    | some w => rfl
    | none =>
      by_cases hk : k1 = k
      · simp [hk]
      · simp [hk]

theorem readPath_resolve (h : Heap) (p : List String) (v x : JVal)
    (hr : readPath v p = .ok x) : readPath (resolve h v) p = .ok (resolve h x) := by
  induction p generalizing v with
  | nil =>
    simp only [readPath, Except.ok.injEq] at hr
    subst hr
    rfl
  | cons k ks ih =>
    rw [readPath_cons] at hr
    cases hc : v.read k with
    | error e => simp [hc] at hr
    | ok c =>
      simp only [hc] at hr
      have hread : (resolve h v).read k = .ok (resolve h c) := by
        cases v with
        | obj o =>
          simp only [JVal.read, Except.ok.injEq] at hc
          subst hc
          simp only [resolve, JVal.read, getProp_resolveProps]
          cases getProp k o <;> rfl
        | bool b =>
          simp only [JVal.read, Except.ok.injEq] at hc
          subst hc
          rfl
        | num n =>
          simp only [JVal.read, Except.ok.injEq] at hc
          subst hc
          rfl
        | _ => simp [JVal.read] at hc
      rw [readPath_cons, hread]
      exact ih c hr

theorem readPath_spread1_obj (h : Heap) (o : Props) (k : String) (ks : List String) :
    readPath (spread1 h (.obj o)) (k :: ks) = readPath (.obj o) (k :: ks) := by
  rw [readPath_cons, readPath_cons]
  simp [spread1, spread, JVal.read, getProp_assignAll, getProp]

/-- When the tree of an instance has a doc object and its conclusions hold the
ledger array, finalize returns and hands the engine a tree whose conclusions
section lists the records of the ledger. -/
theorem finalize_attaches_ledger (st : St) (od o : Props) (a : Nat)
    (hdoc : readPath st.self.metaAndMain ["akomaNtoso", "doc"] = .ok (.obj od))
    (ho : st.self.conclusions = .obj o) (hget : getProp "signature" o = some (.ref a)) :
    ∃ t, fullTree st = some t ∧
      readPath t (conclusionsPath ++ ["signature"]) = .ok (.arr (st.heap a)) ∧
      ∀ q x, diverges conclusionsPath q = true → readPath st.self.metaAndMain q = .ok x →
        readPath t q = .ok (resolve st.heap x) := by
  obtain ⟨oa, hak, _⟩ := readPath_snoc_inv ["akomaNtoso"] "doc" _ _ hdoc
    (fun hcontra => JVal.noConfusion hcontra)
  obtain ⟨ot, htop, hgetak⟩ := readPath_snoc_inv [] "akomaNtoso" _ _ hak
    (fun hcontra => JVal.noConfusion hcontra)
  simp only [readPath, Except.ok.injEq] at htop
  have hne : ot ≠ [] := by
    intro hnil
    simp [hnil, getProp] at hgetak
  have hone : o ≠ [] := by
    intro hnil
    simp [hnil, getProp] at hget
  obtain ⟨mm, hass, hmm⟩ := assignPath_obj ["akomaNtoso", "doc"] st.self.metaAndMain od
    "conclusions" (spread1 st.heap st.self.conclusions) hdoc
  obtain ⟨oa', hak', _⟩ := readPath_snoc_inv ["akomaNtoso"] "doc" _ _ hmm
    (fun hcontra => JVal.noConfusion hcontra)
  obtain ⟨om, hmtop, _⟩ := readPath_snoc_inv [] "akomaNtoso" _ _ hak'
    (fun hcontra => JVal.noConfusion hcontra)
  simp only [readPath, Except.ok.injEq] at hmtop
  have hsig : readPath mm (conclusionsPath ++ ["signature"]) = .ok (.ref a) := by
    have hc : readPath mm conclusionsPath = .ok (spread1 st.heap st.self.conclusions) := by
      show readPath mm (["akomaNtoso", "doc"] ++ ["conclusions"]) = _
      rw [readPath_snoc_obj ["akomaNtoso", "doc"] "conclusions" mm _ hmm]
      simp [getProp_setProp]
    rw [ho] at hc
    rw [readPath_snoc_obj conclusionsPath "signature" mm _ hc]
    simp [spread, getProp_assignAll, hget, getProp]
  refine ⟨resolve st.heap (spread1 st.heap mm), ?_, ?_, ?_⟩
  · have hl1 : ¬ (ot.length = 0) := fun hl => hne (List.length_eq_zero.mp hl)
    have hl2 : ¬ (o.length = 0) := fun hl => hone (List.length_eq_zero.mp hl)
    simp [fullTree, finalize, htop, ho, JVal.keys, spread, hl1, hl2, Outcome.val?]
    rw [← ho, ← htop, hass]
    rfl
  · rw [hmtop]
    show readPath (resolve st.heap (spread1 st.heap (.obj om)))
      ("akomaNtoso" :: "doc" :: "conclusions" :: ["signature"]) = _
    have h2 : readPath (spread1 st.heap (.obj om))
        ("akomaNtoso" :: "doc" :: "conclusions" :: ["signature"]) = .ok (.ref a) := by
      rw [readPath_spread1_obj, ← hmtop]
      exact hsig
    rw [readPath_resolve st.heap _ _ _ h2]
    rfl
  · intro q x hq hx
    have hfr : readPath mm q = .ok x := by
      rw [readPath_assignPath_frame ["akomaNtoso", "doc"] _ mm q "conclusions" _ hq hass]
      exact hx
    cases q with
    | nil => simp [conclusionsPath, diverges] at hq
    | cons b q =>
      rw [hmtop] at hfr ⊢
      have h2 : readPath (spread1 st.heap (.obj om)) (b :: q) = .ok x := by
        rw [readPath_spread1_obj]
        exact hfr
      exact readPath_resolve st.heap _ _ _ h2

/-- C19, as the claim states it, fails: a signature appended before
newAKNDocument is still in the ledger of the instance after the call, and the
next finalize attaches it to the newly assembled document. -/
theorem earlier_signature_survives_assembly :
    ledger (run stdTemplates [botSignature, .newAKNDocument scenarioInput] freshState) =
      [swRecord 1 (.str "sw1") (.str "Notary-bot") (.str "c2lnMg==")] ∧
    ∃ t, fullTree (run stdTemplates [botSignature, .newAKNDocument scenarioInput] freshState) =
        some t ∧
      readPath t (conclusionsPath ++ ["signature"]) =
        .ok (.arr [swRecord 1 (.str "sw1") (.str "Notary-bot") (.str "c2lnMg==")]) :=
  ⟨rfl, _, rfl, rfl⟩

/-- C19 (amended): for every instance state and every construction input that
newAKNDocument can assemble, the call returns and stores the populated tree,
one block per block descriptor, whose conclusions section is that of the
document skeleton (none when the skeleton has none); the conclusions of the
instance, its ledger and its signature counter are left as they were, so the
conclusions are empty after the call when they were empty before it; and when
the instance holds a ledger from signatures appended before the call, a
finalize called next returns and hands the engine the newly assembled document,
with the title and the blocks of the input, and with the records of that ledger
as the signature list of its conclusions section. -/
theorem newAKNDocument_leaves_conclusions (tm : Templates) (st : St) (d : DocElements)
    (hv : Assemblable tm st.heap d) :
    ∃ st' blocks, newAKNDocument tm d st = .ret () st' ∧
      readPath st'.self.metaAndMain (bodyPath ++ ["tblock"]) = .ok (.arr blocks) ∧
      blocks.length = d.mainBody.length ∧
      readPath st'.self.metaAndMain (titlePath ++ ["p"]) = .ok d.prefaceTitle ∧
      readPath st'.self.metaAndMain conclusionsPath =
        readPath tm.metaAndMainTemplate conclusionsPath ∧
      st'.self.conclusions = st.self.conclusions ∧
      st'.self.signaturesNum = st.self.signaturesNum ∧
      ledger st' = ledger st ∧
      (st.self.conclusions = .obj [] → st'.self.conclusions = .obj [] ∧ ledger st' = []) ∧
      (∀ o a, st.self.conclusions = .obj o → getProp "signature" o = some (.ref a) →
        ∃ t, fullTree st' = some t ∧
          readPath t (conclusionsPath ++ ["signature"]) = .ok (.arr (ledger st)) ∧
          readPath t (titlePath ++ ["p"]) = .ok (resolve st'.heap d.prefaceTitle) ∧
          readPath t (bodyPath ++ ["tblock"]) = .ok (resolve st'.heap (.arr blocks))) := by
  obtain ⟨tree, hb, hbuilt⟩ := buildDocument_spec tm st.heap d hv
  refine ⟨{ st with self := { st.self with metaAndMain := tree } }, _, ?_, hbuilt.body,
    blocksFrom_length _ _ _, hbuilt.title, hbuilt.frame _ (by decide), rfl, rfl, rfl, ?_, ?_⟩
  · simp [newAKNDocument, hb]
  · intro hc
    refine ⟨hc, ?_⟩
    simp [ledger, hc, JVal.read, getProp]
  · intro o a ho hget
    obtain ⟨ob, hbody, _⟩ := readPath_snoc_inv bodyPath "tblock" tree _ hbuilt.body
      (fun hcontra => JVal.noConfusion hcontra)
    obtain ⟨od, hdoc, _⟩ := readPath_snoc_inv ["akomaNtoso", "doc"] "mainBody" tree _ hbody
      (fun hcontra => JVal.noConfusion hcontra)
    obtain ⟨t, ht, hsig, hfr⟩ := finalize_attaches_ledger
      { st with self := { st.self with metaAndMain := tree } } od o a hdoc ho hget
    refine ⟨t, ht, ?_, hfr _ _ (by decide) hbuilt.title, hfr _ _ (by decide) hbuilt.body⟩
    rw [hsig, ledger_of_ledgerState a st o ho hget]

theorem newAKNDocument_leaves_conclusions_witness :
    (Assemblable stdTemplates (run stdTemplates [botSignature] freshState).heap scenarioInput ∧
      (run stdTemplates [botSignature] freshState).self.conclusions =
        .obj [("signature", .ref ledgerAddr)] ∧
      ledger (run stdTemplates [botSignature] freshState) =
        [swRecord 1 (.str "sw1") (.str "Notary-bot") (.str "c2lnMg==")]) ∧
    ∃ st' blocks, newAKNDocument stdTemplates scenarioInput
        (run stdTemplates [botSignature] freshState) = .ret () st' ∧
      readPath st'.self.metaAndMain (bodyPath ++ ["tblock"]) = .ok (.arr blocks) ∧
      blocks.length = scenarioInput.mainBody.length ∧
      readPath st'.self.metaAndMain (titlePath ++ ["p"]) = .ok scenarioInput.prefaceTitle ∧
      readPath st'.self.metaAndMain conclusionsPath =
        readPath stdTemplates.metaAndMainTemplate conclusionsPath ∧
      st'.self.conclusions = (run stdTemplates [botSignature] freshState).self.conclusions ∧
      st'.self.signaturesNum = (run stdTemplates [botSignature] freshState).self.signaturesNum ∧
      ledger st' = ledger (run stdTemplates [botSignature] freshState) ∧
      ((run stdTemplates [botSignature] freshState).self.conclusions = .obj [] →
        st'.self.conclusions = .obj [] ∧ ledger st' = []) ∧
      (∀ o a, (run stdTemplates [botSignature] freshState).self.conclusions = .obj o →
        getProp "signature" o = some (.ref a) →
        ∃ t, fullTree st' = some t ∧
          readPath t (conclusionsPath ++ ["signature"]) =
            .ok (.arr (ledger (run stdTemplates [botSignature] freshState))) ∧
          readPath t (titlePath ++ ["p"]) =
            .ok (resolve st'.heap scenarioInput.prefaceTitle) ∧
          readPath t (bodyPath ++ ["tblock"]) = .ok (resolve st'.heap (.arr blocks))) :=
  ⟨⟨scenarioInput_assemblable_at _, rfl, rfl⟩,
   newAKNDocument_leaves_conclusions stdTemplates (run stdTemplates [botSignature] freshState)
     scenarioInput (scenarioInput_assemblable_at _)⟩

/-- C20: assembly replaces and does not accumulate: for every instance state,
every input a and every input b that newAKNDocument can assemble, the tree
stored after newAKNDocument(a) followed by newAKNDocument(b) is the tree stored
after newAKNDocument(b) alone on a new instance; its body blocks are those of b,
numbered from tblock_1. -/
theorem newAKNDocument_replaces (tm : Templates) (st : St) (a b : DocElements)
    (hb : Assemblable tm st.heap b) :
    ∃ s2 s2' blocks,
      newAKNDocument tm b (newAKNDocument tm a st).st = .ret () s2 ∧
      newAKNDocument tm b { heap := st.heap, self := AKNDoc.new } = .ret () s2' ∧
      s2.self.metaAndMain = s2'.self.metaAndMain ∧
      readPath s2.self.metaAndMain (bodyPath ++ ["tblock"]) = .ok (.arr blocks) ∧
      blocks.map (fun blk => blk.read "@eId") =
        (List.range b.mainBody.length).map
          (fun k => Except.ok (JVal.str ("tblock_" ++ toString (k + 1)))) := by
  obtain ⟨tree, hbd, hbuilt⟩ := buildDocument_spec tm st.heap b hb
  obtain ⟨hh, _, _⟩ := newAKNDocument_frame tm a st
  have hids := blocksFrom_ids st.heap 1 b.mainBody
  have hfun : (fun k => (Except.ok (JVal.str ("tblock_" ++ toString (1 + k))) : Except Err JVal))
      = (fun k => Except.ok (JVal.str ("tblock_" ++ toString (k + 1)))) := by
    funext k
    rw [Nat.add_comm]
  generalize (newAKNDocument tm a st).st = s1 at hh
  refine ⟨{ s1 with self := { s1.self with metaAndMain := tree } },
    { heap := st.heap, self := { AKNDoc.new with metaAndMain := tree } }, _, ?_, ?_, rfl,
    hbuilt.body, ?_⟩
  · unfold newAKNDocument
    rw [hh, hbd]
  · unfold newAKNDocument
    simp only [hbd]
  · rw [hids, hfun]

theorem newAKNDocument_replaces_witness :
    Assemblable stdTemplates freshState.heap scenarioInput ∧
    ∃ s2 s2' blocks,
      newAKNDocument stdTemplates scenarioInput
        (newAKNDocument stdTemplates ownIdInput freshState).st = .ret () s2 ∧
      newAKNDocument stdTemplates scenarioInput
        { heap := freshState.heap, self := AKNDoc.new } = .ret () s2' ∧
      s2.self.metaAndMain = s2'.self.metaAndMain ∧
      readPath s2.self.metaAndMain (bodyPath ++ ["tblock"]) = .ok (.arr blocks) ∧
      blocks.map (fun blk => blk.read "@eId") =
        (List.range scenarioInput.mainBody.length).map
          (fun k => Except.ok (JVal.str ("tblock_" ++ toString (k + 1)))) :=
  ⟨scenarioInput_assemblable,
   newAKNDocument_replaces stdTemplates freshState ownIdInput scenarioInput
     scenarioInput_assemblable⟩

/-! ## Parsing -/

theorem getProp_delProp (k k' : String) (o : Props) :
    getProp k' (delProp k o) = if k = k' then none else getProp k' o := by
  induction o with
  | nil => simp [delProp, getProp]
  | cons kv rest ih =>
    obtain ⟨k1, v1⟩ := kv
    by_cases h1 : k1 = k
    · subst h1
      rw [delProp, if_pos rfl, ih, getProp_cons]
      by_cases h : k1 = k'
      · simp [h]
      · simp [h]
    · rw [delProp, if_neg h1, getProp_cons, getProp_cons, ih]
      by_cases h : k = k'
      · subst h
        simp [h1]
      · simp [h]

theorem read_remove_other (v v' : JVal) (k k' : String) (hne : k ≠ k')
    (h : v.remove k = .ok v') : v'.read k' = v.read k' := by
  cases v <;> simp [JVal.remove] at h
  all_goals subst h
  · rfl
  · rfl
  · simp [JVal.read, getProp_delProp, hne]

theorem readPath_deletePath_frame (ps : List String) (v v' : JVal) (q : List String)
    (k : String) (hd : diverges (ps ++ [k]) q = true)
    (h : deletePath v ps k = .ok v') : readPath v' q = readPath v q := by
  induction ps generalizing v v' q with
  | nil =>
    cases q with
    | nil => simp [diverges] at hd
    | cons b q =>
      simp only [List.nil_append, diverges] at hd
      have hkb : k ≠ b := by
        intro hkb
        simp [hkb, diverges] at hd
      simp only [deletePath] at h
      rw [readPath_cons, readPath_cons, read_remove_other v v' k b hkb h]
  | cons p ps ih =>
    cases q with
    | nil => simp [diverges] at hd
    | cons b q =>
      simp only [List.cons_append, diverges] at hd
      simp only [deletePath] at h
      cases hr : v.read p with
      | error e => simp [hr] at h
      | ok c =>
        simp only [hr] at h
        cases ha : deletePath c ps k with
        | error e => simp [ha] at h
        | ok c' =>
          simp only [ha] at h
          by_cases hpb : p = b
          · subst hpb
            simp only [if_true] at hd
            rw [readPath_cons, readPath_cons, read_assign_same v v' p c' h, hr]
            exact ih c c' q hd ha
          · rw [readPath_cons, readPath_cons, read_assign_other v v' p b c' hpb h]

theorem deletePath_obj (ps : List String) (v : JVal) (o : Props) (k : String)
    (h : readPath v ps = .ok (.obj o)) :
    ∃ v', deletePath v ps k = .ok v' ∧ readPath v' ps = .ok (.obj (delProp k o)) := by
  induction ps generalizing v with
  | nil =>
    simp only [readPath, Except.ok.injEq] at h
    subst h
    exact ⟨_, rfl, rfl⟩
  | cons p ps ih =>
    rw [readPath_cons] at h
    cases hr : v.read p with
    | error e => simp [hr] at h
    | ok c =>
      simp only [hr] at h
      obtain ⟨c', hc', hread⟩ := ih c h
      cases v with
      | obj ov =>
        refine ⟨.obj (setProp p c' ov), ?_, ?_⟩
        · simp [deletePath, hr, hc', JVal.assign]
        · rw [readPath_cons]
          simp [JVal.read, getProp_setProp, hread]
      | bool b =>
        simp [JVal.read] at hr
        subst hr
        cases ps <;> simp [readPath, JVal.read] at h
      | num n =>
        simp [JVal.read] at hr
        subst hr
        cases ps <;> simp [readPath, JVal.read] at h
      | _ => simp [JVal.read] at hr

theorem inherited_akomaNtoso : inherited "akomaNtoso" = false := by decide

theorem fromString_of_section (convert : String → JVal) (fresh : Nat) (string : String)
    (heap : Heap) (c : JVal) (hhas : (convert string).has "akomaNtoso" = .ok true)
    (hread : readPath (convert string) conclusionsPath = .ok c) (hne : c ≠ .str "undefined") :
    fromString convert fresh string heap =
      match deletePath (convert string) ["akomaNtoso", "doc"] "conclusions" with
      | .error e => .error e
      | .ok mm =>
        .ok (some { heap := (adoptLedger fresh heap c).1,
                    self := { metaAndMain := mm, conclusions := (adoptLedger fresh heap c).2,
                              signaturesNum := 0 } }) := by
  unfold fromString
  simp only [hhas, hread]

theorem ensureConclusions_present (tm : Templates) (st : St) (o : Props) (k : String)
    (v : JVal) (ho : st.self.conclusions = .obj o) (hk : getProp k o = some v) :
    ensureConclusions tm st = .ret () st := by
  have hne : o ≠ [] := by
    intro hnil
    simp [hnil, getProp] at hk
  have hlen : ¬ o.length = 0 := fun hl => hne (List.length_eq_zero.mp hl)
  simp [ensureConclusions, ho, JVal.keys, spread, hlen]

/-- C13 fails on the code: the scenario input is assembled on a new instance d,
finalize hands the engine the tree `unsignedTree`, and the engine's parse gives
that tree back.  The instance fromString returns has the document tree of d,
but its conclusions field is `undefined` where that of d is the empty object of
the constructor, and finalize, which returns on d, throws on it. -/
theorem round_trip_loses_empty_conclusions :
    fullTree (run stdTemplates [.newAKNDocument scenarioInput] freshState) = some unsignedTree ∧
    ∃ r, fromString (fun _ => unsignedTree) parsedAddr "<akomaNtoso/>" freshHeap = .ok (some r) ∧
      r.self.metaAndMain =
        (run stdTemplates [.newAKNDocument scenarioInput] freshState).self.metaAndMain ∧
      (run stdTemplates [.newAKNDocument scenarioInput] freshState).self.conclusions = .obj [] ∧
      r.self.conclusions = .undef ∧
      r.self.conclusions ≠
        (run stdTemplates [.newAKNDocument scenarioInput] freshState).self.conclusions ∧
      (finalize r).val? = none := by
  refine ⟨rfl, _, rfl, rfl, rfl, rfl, ?_, rfl⟩
  intro h
  have h1 : (run stdTemplates [.newAKNDocument scenarioInput] freshState).self.conclusions
      = .obj [] := rfl
  rw [h1] at h
  exact JVal.noConfusion h

/-- C14, as the claim states it, fails: a parsed structure rooted at
akomaNtoso whose akomaNtoso holds no doc makes fromString throw a TypeError; it
returns neither an instance nor the absent result. -/
theorem fromString_throws_without_doc :
    (JVal.obj [("akomaNtoso", .obj [])]).has "akomaNtoso" = .ok true ∧
    fromString (fun _ => .obj [("akomaNtoso", .obj [])]) parsedAddr "<akomaNtoso/>" freshHeap =
      .error .typeError :=
  ⟨rfl, rfl⟩

/-- C14 (amended): for every parsed structure that is an object, fromString
returns the absent result exactly when the structure has no akomaNtoso field;
and when akomaNtoso holds an object with a doc object, fromString returns an
instance whose counter is 0 and whose document tree is the parsed structure,
the conclusions field of doc apart. -/
theorem fromString_root_check (convert : String → JVal) (fresh : Nat) (string : String)
    (heap : Heap) (ox : Props) (hx : convert string = .obj ox) :
    (fromString convert fresh string heap = .ok none ↔ getProp "akomaNtoso" ox = none) ∧
    (∀ oa od, getProp "akomaNtoso" ox = some (.obj oa) → getProp "doc" oa = some (.obj od) →
      ∃ st, fromString convert fresh string heap = .ok (some st) ∧
        st.self.signaturesNum = 0 ∧
        ∀ q, diverges conclusionsPath q = true →
          readPath st.self.metaAndMain q = readPath (.obj ox) q) := by
  constructor
  · constructor
    · intro h
      cases hg : getProp "akomaNtoso" ox with
      | none => rfl
      | some w =>
        exfalso
        unfold fromString at h
        simp only [hx, JVal.has, hasProp, hg, Option.isSome_some, Bool.true_or] at h
        split at h
        · exact Except.noConfusion h
        · rename_i heq
          simp at h
        · split at h
          · exact Except.noConfusion h
          · simp at h
    · intro hg
      unfold fromString
      simp [hx, JVal.has, hasProp, hg, inherited_akomaNtoso]
  · intro oa od ha hd
    have hdoc : readPath (.obj ox) ["akomaNtoso", "doc"] = .ok (.obj od) := by
      simp [readPath, JVal.read, ha, hd]
    have hhas : (convert string).has "akomaNtoso" = .ok true := by
      simp [hx, JVal.has, hasProp, ha]
    have hread : readPath (convert string) conclusionsPath =
        .ok ((getProp "conclusions" od).getD .undef) := by
      rw [hx]
      exact readPath_snoc_obj ["akomaNtoso", "doc"] "conclusions" _ od hdoc
    by_cases hu : (getProp "conclusions" od).getD .undef = .str "undefined"
    · refine ⟨⟨heap, ⟨.obj ox, .obj [], 0⟩⟩, ?_, rfl, fun _ _ => rfl⟩
      rw [hx] at hhas hread
      unfold fromString
      simp only [hx, hhas, hread, hu]
    · obtain ⟨mm, hdel, _⟩ := deletePath_obj ["akomaNtoso", "doc"] (.obj ox) od "conclusions" hdoc
      refine ⟨⟨(adoptLedger fresh heap ((getProp "conclusions" od).getD .undef)).1,
        ⟨mm, (adoptLedger fresh heap ((getProp "conclusions" od).getD .undef)).2, 0⟩⟩,
        ?_, rfl, ?_⟩
      · rw [fromString_of_section convert fresh string heap _ hhas hread hu, hx, hdel]
      · intro q hq
        exact readPath_deletePath_frame ["akomaNtoso", "doc"] _ _ q "conclusions" hq hdel

theorem fromString_root_check_witness :
    (fun (_ : String) => signedParsed) "<akomaNtoso/>" =
      .obj [("akomaNtoso", .obj parsedRoot)] ∧
    ((fromString (fun _ => signedParsed) parsedAddr "<akomaNtoso/>" freshHeap = .ok none ↔
        getProp "akomaNtoso" [("akomaNtoso", JVal.obj parsedRoot)] = none) ∧
    (∀ oa od, getProp "akomaNtoso" [("akomaNtoso", JVal.obj parsedRoot)] = some (.obj oa) →
      getProp "doc" oa = some (.obj od) →
      ∃ st, fromString (fun _ => signedParsed) parsedAddr "<akomaNtoso/>" freshHeap =
          .ok (some st) ∧
        st.self.signaturesNum = 0 ∧
        ∀ q, diverges conclusionsPath q = true →
          readPath st.self.metaAndMain q =
            readPath (.obj [("akomaNtoso", JVal.obj parsedRoot)]) q)) :=
  ⟨rfl, fromString_root_check (fun _ => signedParsed) parsedAddr "<akomaNtoso/>" freshHeap _ rfl⟩

/-- C16 fails on the code: the structure parsed from a document without
conclusions gives an instance whose conclusions field is `undefined`, not the
empty object of a new instance; addSignature, addSwSignature and finalize throw
a TypeError on it and the ledger stays without a record. -/
theorem unsigned_parse_cannot_be_signed :
    readPath unsignedTree conclusionsPath = .ok .undef ∧
    AKNDoc.new.conclusions = .obj [] ∧
    ∃ r, fromString (fun _ => unsignedTree) parsedAddr "<akomaNtoso/>" freshHeap = .ok (some r) ∧
      r.self.conclusions = .undef ∧
      addSwSignature stdTemplates (.str "sw1") (.str "Notary-bot") (.str "c2lnMg==") r =
        .thrown .typeError r ∧
      addSignature stdTemplates (.str "sig1") (.str "Alice") (.str "role1") (.str "Signer")
        (.str "/keys/alice") (.str "MIIB") (.str "2021-01-01") (.str "c2lnMQ==") r =
        .thrown .typeError r ∧
      ledger r = [] ∧
      finalize r = .thrown .typeError r :=
  ⟨rfl, rfl, _, rfl, rfl, rfl, rfl, rfl, rfl⟩

theorem append_to_adopted (tm : Templates) (mk : Nat → JVal) (fresh : Nat) (st : St)
    (oc : Props) (ho : st.self.conclusions = .obj oc)
    (hget : getProp "signature" oc = some (.ref fresh)) :
    ∃ st', (match ensureConclusions tm st with
        | .thrown e s => Outcome.thrown e s
        | .ret _ s => pushSignature mk s) = .ret () st' ∧
      ledger st' = st.heap fresh ++ [mk (st.self.signaturesNum + 1)] := by
  rw [ensureConclusions_present tm st oc "signature" _ ho hget]
  simp only
  rw [pushSignature_spec mk fresh st oc ho hget]
  refine ⟨_, rfl, ?_⟩
  simp [ledger, ho, JVal.read, hget]

/-- Extraction of a parsed conclusions section that holds a signature list.
For every parsed structure rooted at akomaNtoso whose doc holds a conclusions
section C, fromString returns an instance whose counter is 0 and whose document
tree is the parsed structure with the conclusions field of doc removed and
every other field unchanged.  The instance holds C as its conclusions: C itself
when C has no signature list, and otherwise C with its signature list as the
ledger; the next signature appended to that list, human or software, is
numbered 1 whatever identifiers C holds. -/
theorem fromString_extracts_conclusions (convert : String → JVal) (fresh : Nat)
    (string : String) (heap : Heap) (ox oa od : Props) (C : JVal)
    (hx : convert string = .obj ox) (ha : getProp "akomaNtoso" ox = some (.obj oa))
    (hd : getProp "doc" oa = some (.obj od)) (hC : getProp "conclusions" od = some C)
    (hne : C ≠ .str "undefined") :
    ∃ st, fromString convert fresh string heap = .ok (some st) ∧
      st.self.signaturesNum = 0 ∧
      readPath st.self.metaAndMain conclusionsPath = .ok .undef ∧
      (∀ q, diverges conclusionsPath q = true →
        readPath st.self.metaAndMain q = readPath (.obj ox) q) ∧
      ((∀ oc xs, C = .obj oc → getProp "signature" oc ≠ some (.arr xs)) →
        st.self.conclusions = C ∧ st.heap = heap) ∧
      (∀ oc xs, C = .obj oc → getProp "signature" oc = some (.arr xs) →
        (∃ oc', st.self.conclusions = .obj oc' ∧ getProp "signature" oc' = some (.ref fresh) ∧
          ∀ k, k ≠ "signature" → getProp k oc' = getProp k oc) ∧
        ledger st = xs ∧
        (∀ tm eId name signature, ∃ st' record,
          addSwSignature tm eId name signature st = .ret () st' ∧
          ledger st' = xs ++ [record] ∧
          readPath record ["object", "@eId"] = .ok (.str "conclusion_signature_1_sw")) ∧
        (∀ tm eId name roleEId roleName publicKeyHref publicKey timestamp signature,
          ∃ st' record,
          addSignature tm eId name roleEId roleName publicKeyHref publicKey timestamp signature
            st = .ret () st' ∧
          ledger st' = xs ++ [record] ∧
          readPath record ["person", "@eId"] = .ok (.str "conclusion_signature_1_pers"))) := by
  have hdoc : readPath (.obj ox) ["akomaNtoso", "doc"] = .ok (.obj od) := by
    simp [readPath, JVal.read, ha, hd]
  have hhas : (convert string).has "akomaNtoso" = .ok true := by
    simp [hx, JVal.has, hasProp, ha]
  have hread : readPath (convert string) conclusionsPath = .ok C := by
    rw [hx, show conclusionsPath = ["akomaNtoso", "doc"] ++ ["conclusions"] from rfl,
      readPath_snoc_obj ["akomaNtoso", "doc"] "conclusions" _ od hdoc, hC]
    rfl
  obtain ⟨mm, hdel, hmm⟩ := deletePath_obj ["akomaNtoso", "doc"] (.obj ox) od "conclusions" hdoc
  refine ⟨⟨(adoptLedger fresh heap C).1, ⟨mm, (adoptLedger fresh heap C).2, 0⟩⟩, ?_, rfl, ?_, ?_,
    ?_, ?_⟩
  · rw [fromString_of_section convert fresh string heap _ hhas hread hne, hx, hdel]
  · show readPath mm (["akomaNtoso", "doc"] ++ ["conclusions"]) = _
    rw [readPath_snoc_obj ["akomaNtoso", "doc"] "conclusions" mm _ hmm, getProp_delProp]
    simp
  · intro q hq
    exact readPath_deletePath_frame ["akomaNtoso", "doc"] _ _ q "conclusions" hq hdel
  · intro hno
    cases C with
    | obj oc =>
      cases hs : getProp "signature" oc with
      | none => simp [adoptLedger, hs]
      | some w =>
        cases w with
        | arr xs => exact absurd hs (hno oc xs rfl)
        | _ => simp [adoptLedger, hs]
    | _ => simp [adoptLedger]
  · intro oc xs hCo hs
    subst hCo
    have hconc : (adoptLedger fresh heap (.obj oc)).2 =
        .obj (setProp "signature" (.ref fresh) oc) := by
      simp [adoptLedger, hs]
    have hheap : (adoptLedger fresh heap (.obj oc)).1 = Function.update heap fresh xs := by
      simp [adoptLedger, hs]
    have hsig : getProp "signature" (setProp "signature" (.ref fresh) oc) =
        some (.ref fresh) := by
      simp [getProp_setProp]
    have hl : ledger ⟨(adoptLedger fresh heap (.obj oc)).1,
        ⟨mm, (adoptLedger fresh heap (.obj oc)).2, 0⟩⟩ = xs := by
      rw [ledger_of_ledgerState fresh _ _ hconc hsig]
      simp [hheap]
    have hh : (adoptLedger fresh heap (.obj oc)).1 fresh = xs := by
      simp [hheap]
    refine ⟨⟨_, hconc, hsig, ?_⟩, hl, ?_, ?_⟩
    · intro k hk
      simp [getProp_setProp, Ne.symm hk]
    · intro tm eId name signature
      obtain ⟨st', hret, hled⟩ := append_to_adopted tm (fun n => swRecord n eId name signature)
        fresh ⟨(adoptLedger fresh heap (.obj oc)).1, ⟨mm, (adoptLedger fresh heap (.obj oc)).2, 0⟩⟩
        _ hconc hsig
      refine ⟨st', swRecord 1 eId name signature, hret, ?_, rfl⟩
      rw [hled]
      show (adoptLedger fresh heap (.obj oc)).1 fresh ++ [swRecord (0 + 1) eId name signature] = _
      rw [hh]
    · intro tm eId name roleEId roleName publicKeyHref publicKey timestamp signature
      obtain ⟨st', hret, hled⟩ := append_to_adopted tm
        (fun n => humanRecord n eId name roleEId roleName publicKeyHref publicKey timestamp
          signature)
        fresh ⟨(adoptLedger fresh heap (.obj oc)).1, ⟨mm, (adoptLedger fresh heap (.obj oc)).2, 0⟩⟩
        _ hconc hsig
      refine ⟨st', humanRecord 1 eId name roleEId roleName publicKeyHref publicKey timestamp
        signature, hret, ?_, rfl⟩
      rw [hled]
      show (adoptLedger fresh heap (.obj oc)).1 fresh ++ [humanRecord (0 + 1) eId name roleEId
        roleName publicKeyHref publicKey timestamp signature] = _
      rw [hh]

theorem fromString_extracts_conclusions_witness :
    ((fun (_ : String) => signedParsed) "<akomaNtoso/>" = .obj [("akomaNtoso", .obj parsedRoot)] ∧
      getProp "akomaNtoso" [("akomaNtoso", JVal.obj parsedRoot)] = some (.obj parsedRoot) ∧
      getProp "doc" parsedRoot = some (.obj parsedDoc) ∧
      getProp "conclusions" parsedDoc = some (.obj parsedConclusions) ∧
      JVal.obj parsedConclusions ≠ .str "undefined") ∧
    ∃ st, fromString (fun _ => signedParsed) parsedAddr "<akomaNtoso/>" freshHeap =
        .ok (some st) ∧
      st.self.signaturesNum = 0 ∧
      readPath st.self.metaAndMain conclusionsPath = .ok .undef ∧
      (∀ q, diverges conclusionsPath q = true →
        readPath st.self.metaAndMain q = readPath (.obj [("akomaNtoso", .obj parsedRoot)]) q) ∧
      ((∀ oc xs, JVal.obj parsedConclusions = .obj oc → getProp "signature" oc ≠ some (.arr xs)) →
        st.self.conclusions = .obj parsedConclusions ∧ st.heap = freshHeap) ∧
      (∀ oc xs, JVal.obj parsedConclusions = .obj oc → getProp "signature" oc = some (.arr xs) →
        (∃ oc', st.self.conclusions = .obj oc' ∧
          getProp "signature" oc' = some (.ref parsedAddr) ∧
          ∀ k, k ≠ "signature" → getProp k oc' = getProp k oc) ∧
        ledger st = xs ∧
        (∀ tm eId name signature, ∃ st' record,
          addSwSignature tm eId name signature st = .ret () st' ∧
          ledger st' = xs ++ [record] ∧
          readPath record ["object", "@eId"] = .ok (.str "conclusion_signature_1_sw")) ∧
        (∀ tm eId name roleEId roleName publicKeyHref publicKey timestamp signature,
          ∃ st' record,
          addSignature tm eId name roleEId roleName publicKeyHref publicKey timestamp signature
            st = .ret () st' ∧
          ledger st' = xs ++ [record] ∧
          readPath record ["person", "@eId"] = .ok (.str "conclusion_signature_1_pers"))) :=
  ⟨⟨rfl, rfl, rfl, rfl, fun h => JVal.noConfusion h⟩,
   fromString_extracts_conclusions (fun _ => signedParsed) parsedAddr "<akomaNtoso/>" freshHeap
     [("akomaNtoso", .obj parsedRoot)] parsedRoot parsedDoc (.obj parsedConclusions)
     rfl rfl rfl rfl (fun h => JVal.noConfusion h)⟩

/-- C15 fails on the code: the parsed structure `oneSignatureParsed` is rooted at
akomaNtoso and its doc holds a conclusions section C whose signature is a
single record.  fromString returns an instance with counter 0 that holds C as
its conclusions and whose tree is the parsed structure without the conclusions
field, but no signature can be appended to it: addSwSignature and addSignature
look up `push` on the record, advance the counter to 1 and throw a TypeError,
and the conclusions hold the one old record as before. -/
theorem single_signature_parse_rejects_append :
    readPath oneSignatureParsed conclusionsPath = .ok (.obj oneSignatureConclusions) ∧
    ∃ r, fromString (fun _ => oneSignatureParsed) parsedAddr "<akomaNtoso/>" freshHeap =
        .ok (some r) ∧
      r.self.signaturesNum = 0 ∧
      r.self.conclusions = .obj [("signature", parsedRecord)] ∧
      r.self.metaAndMain =
        .obj [("akomaNtoso", .obj [("doc", .obj [("mainBody", .obj [("tblock", .arr [])])])])] ∧
      (∀ tm eId name signature, ∃ r',
        addSwSignature tm eId name signature r = .thrown .typeError r' ∧
        r'.self.signaturesNum = 1 ∧
        r'.self.conclusions = .obj [("signature", parsedRecord)] ∧
        r'.heap = r.heap) ∧
      (∀ tm eId name roleEId roleName publicKeyHref publicKey timestamp signature, ∃ r',
        addSignature tm eId name roleEId roleName publicKeyHref publicKey timestamp signature r =
          .thrown .typeError r' ∧
        r'.self.signaturesNum = 1 ∧
        r'.self.conclusions = .obj [("signature", parsedRecord)] ∧
        r'.heap = r.heap) := by
  refine ⟨rfl, _, rfl, rfl, rfl, rfl, ?_, ?_⟩
  · intro tm eId name signature
    exact ⟨_, rfl, rfl, rfl, rfl⟩
  · intro tm eId name roleEId roleName publicKeyHref publicKey timestamp signature
    exact ⟨_, rfl, rfl, rfl, rfl⟩

/-! ## Generated identifiers -/

theorem digitChar_isDigit (m : Nat) (hm : m < 10) : (Nat.digitChar m).isDigit = true := by
  interval_cases m <;> decide

theorem toDigitsCore_isDigit (fuel n : Nat) (ds : List Char)
    (h : ∀ c ∈ ds, c.isDigit = true) :
    ∀ c ∈ Nat.toDigitsCore 10 fuel n ds, c.isDigit = true := by
  induction fuel generalizing n ds with
  | zero => simpa [Nat.toDigitsCore] using h
  | succ fuel ih =>
    unfold Nat.toDigitsCore
    simp only
    have hcons : ∀ c ∈ Nat.digitChar (n % 10) :: ds, c.isDigit = true := by
      intro c hc
      rcases List.mem_cons.mp hc with rfl | hc
      · exact digitChar_isDigit _ (Nat.mod_lt _ (by decide))
      · exact h c hc
    split
    · exact hcons
    · exact ih _ _ hcons

theorem toString_isDigit (n : Nat) : ∀ c ∈ (toString n).data, c.isDigit = true := by
  show ∀ c ∈ (Nat.repr n).data, c.isDigit = true
  unfold Nat.repr Nat.toDigits
  simp only [List.asString]
  exact toDigitsCore_isDigit _ _ _ (by simp)

theorem digits_split (d1 d2 s1 s2 : List Char) (h1 : ∀ c ∈ d1, c.isDigit = true)
    (h2 : ∀ c ∈ d2, c.isDigit = true) (t1 : startsNonDigit s1) (t2 : startsNonDigit s2)
    (h : d1 ++ s1 = d2 ++ s2) : d1 = d2 ∧ s1 = s2 := by
  induction d1 generalizing d2 with
  | nil =>
    cases d2 with
    | nil => exact ⟨rfl, by simpa using h⟩
    | cons c d2 =>
      exfalso
      simp only [List.nil_append, List.cons_append] at h
      have := t1 c (by rw [h]; rfl)
      rw [h2 c (List.mem_cons_self _ _)] at this
      exact Bool.noConfusion this
  | cons c d1 ih =>
    cases d2 with
    | nil =>
      exfalso
      simp only [List.nil_append, List.cons_append] at h
      have := t2 c (by rw [← h]; rfl)
      rw [h1 c (List.mem_cons_self _ _)] at this
      exact Bool.noConfusion this
    | cons c2 d2 =>
      simp only [List.cons_append, List.cons.injEq] at h
      obtain ⟨hd, hs⟩ := ih d2 (fun x hx => h1 x (List.mem_cons_of_mem _ hx))
        (fun x hx => h2 x (List.mem_cons_of_mem _ hx)) h.2
      exact ⟨by rw [h.1, hd], hs⟩

theorem idString_data (k : IdKind) (n : Nat) :
    (idString k n).data = idPre k ++ ((toString n).data ++ idSuf k n) := by
  cases k <;> simp [idString, idPre, idSuf, String.data_append, List.append_assoc]

theorem idSuf_startsNonDigit (k : IdKind) (n : Nat) : startsNonDigit (idSuf k n) := by
  intro c hc
  cases k <;> simp [idSuf] at hc <;> subst hc <;> decide

theorem idString_injective (k k' : IdKind) (n n' : Nat) (h : idString k n = idString k' n') :
    k = k' ∧ n = n' := by
  have hd := congrArg String.data h
  rw [idString_data, idString_data] at hd
  have hpre : idPre k = idPre k' := by
    cases k <;> cases k' <;> first | rfl | (exfalso; simp [idPre] at hd)
  rw [hpre] at hd
  obtain ⟨hdig, hsuf⟩ := digits_split _ _ _ _ (toString_isDigit n) (toString_isDigit n')
    (idSuf_startsNonDigit k n) (idSuf_startsNonDigit k' n') (List.append_cancel_left hd)
  have hn : n = n' := toString_nat_injective n n' (String.ext hdig)
  subst hn
  refine ⟨?_, rfl⟩
  cases k <;> cases k' <;> first | rfl | (exfalso; simp [idSuf, idPre] at hsuf hpre)

theorem identifiersAt_tblock (h : Heap) (i : Nat) (b : Block)
    (hp : getProp "@eId" (spread h b.p) = none) :
    identifiersAt blockIdPaths (tblock h i b) =
      [idString .block i, idString .heading i, idString .para i] := by
  have hpar : getProp "@eId"
      (assignAll [("@eId", JVal.str ("tblock_" ++ toString i ++ "__p_" ++ toString i))]
        (spread h b.p)) = some (JVal.str ("tblock_" ++ toString i ++ "__p_" ++ toString i)) := by
    rw [getProp_assignAll, hp]
    rfl
  simp [identifiersAt, blockIdPaths, tblock, readPath, JVal.read, getProp, hpar, idString]

theorem identifiersAt_humanRecord (n : Nat)
    (eId name roleEId roleName publicKeyHref publicKey timestamp signature : JVal) :
    identifiersAt recordIdPaths
        (humanRecord n eId name roleEId roleName publicKeyHref publicKey timestamp signature) =
      [idString .pers n, idString .role n, idString .pk n, idString .pkRef n,
       idString .stamp n] := by
  simp [identifiersAt, recordIdPaths, humanRecord, readPath, JVal.read, getProp, idString]

theorem identifiersAt_swRecord (n : Nat) (eId name signature : JVal) :
    identifiersAt recordIdPaths (swRecord n eId name signature) = [idString .sw n] := by
  simp [identifiersAt, recordIdPaths, swRecord, readPath, JVal.read, getProp, idString]

theorem blocksFrom_identifiers (h : Heap) (i : Nat) (bs : List Block)
    (hp : ∀ b ∈ bs, getProp "@eId" (spread h b.p) = none) :
    (blocksFrom h i bs).flatMap (identifiersAt blockIdPaths) =
      (blockPairs i bs).map (fun p => idString p.1 p.2) := by
  induction bs generalizing i with
  | nil => rfl
  | cons b bs ih =>
    simp only [blocksFrom, List.flatMap_cons, blockPairs, List.map_cons,
      identifiersAt_tblock h i b (hp b (List.mem_cons_self _ _)),
      ih (i + 1) (fun x hx => hp x (List.mem_cons_of_mem _ hx))]
    rfl

theorem recordsFrom_identifiers (n : Nat) (cs : List Call) :
    (recordsFrom n cs).flatMap (identifiersAt recordIdPaths) =
      (recordPairs n cs).map (fun p => idString p.1 p.2) := by
  induction cs generalizing n with
  | nil => rfl
  | cons c cs ih =>
    cases c with
    | addSignature e1 e2 e3 e4 e5 e6 e7 e8 =>
      simp only [recordsFrom, List.flatMap_cons, recordPairs, List.map_cons,
        identifiersAt_humanRecord, ih (n + 1)]
      rfl
    | addSwSignature e1 e2 e3 =>
      simp only [recordsFrom, List.flatMap_cons, recordPairs, List.map_cons,
        identifiersAt_swRecord, ih (n + 1)]
      rfl
    | newAKNDocument d => simpa only [recordsFrom, recordPairs] using ih n
    | finalize => simpa only [recordsFrom, recordPairs] using ih n
    | finalizeNoConclusions => simpa only [recordsFrom, recordPairs] using ih n

theorem mem_blockPairs (i : Nat) (bs : List Block) (p : IdKind × Nat)
    (hp : p ∈ blockPairs i bs) : p.1.ofBlock = true ∧ i ≤ p.2 := by
  induction bs generalizing i with
  | nil => simp [blockPairs] at hp
  | cons b bs ih =>
    simp only [blockPairs, List.mem_cons] at hp
    rcases hp with rfl | rfl | rfl | hp
    · exact ⟨rfl, Nat.le_refl _⟩
    · exact ⟨rfl, Nat.le_refl _⟩
    · exact ⟨rfl, Nat.le_refl _⟩
    · obtain ⟨h1, h2⟩ := ih (i + 1) hp
      exact ⟨h1, by omega⟩

theorem mem_recordPairs (n : Nat) (cs : List Call) (p : IdKind × Nat)
    (hp : p ∈ recordPairs n cs) : p.1.ofBlock = false ∧ n < p.2 := by
  induction cs generalizing n with
  | nil => simp [recordPairs] at hp
  | cons c cs ih =>
    cases c with
    | addSignature e1 e2 e3 e4 e5 e6 e7 e8 =>
      simp only [recordPairs, List.mem_cons] at hp
      rcases hp with rfl | rfl | rfl | rfl | rfl | hp
      · exact ⟨rfl, Nat.lt_succ_self _⟩
      · exact ⟨rfl, Nat.lt_succ_self _⟩
      · exact ⟨rfl, Nat.lt_succ_self _⟩
      · exact ⟨rfl, Nat.lt_succ_self _⟩
      · exact ⟨rfl, Nat.lt_succ_self _⟩
      · obtain ⟨h1, h2⟩ := ih (n + 1) hp
        exact ⟨h1, by omega⟩
    | addSwSignature e1 e2 e3 =>
      simp only [recordPairs, List.mem_cons] at hp
      rcases hp with rfl | hp
      · exact ⟨rfl, Nat.lt_succ_self _⟩
      · obtain ⟨h1, h2⟩ := ih (n + 1) hp
        exact ⟨h1, by omega⟩
    | newAKNDocument d => exact ih n (by simpa only [recordPairs] using hp)
    | finalize => exact ih n (by simpa only [recordPairs] using hp)
    | finalizeNoConclusions => exact ih n (by simpa only [recordPairs] using hp)

theorem blockPairs_nodup (i : Nat) (bs : List Block) : (blockPairs i bs).Nodup := by
  induction bs generalizing i with
  | nil => exact List.nodup_nil
  | cons b bs ih =>
    have hfar : ∀ k : IdKind, (k, i) ∉ blockPairs (i + 1) bs := by
      intro k hk
      have := (mem_blockPairs (i + 1) bs _ hk).2
      simp at this
    simp only [blockPairs, List.nodup_cons, List.mem_cons, Prod.mk.injEq, not_or]
    refine ⟨⟨?_, ?_, hfar _⟩, ⟨?_, hfar _⟩, hfar _, ih (i + 1)⟩
    · simp
    · simp
    · simp

theorem recordPairs_nodup (n : Nat) (cs : List Call) : (recordPairs n cs).Nodup := by
  induction cs generalizing n with
  | nil => exact List.nodup_nil
  | cons c cs ih =>
    have hfar : ∀ k : IdKind, (k, n + 1) ∉ recordPairs (n + 1) cs := by
      intro k hk
      have := (mem_recordPairs (n + 1) cs _ hk).2
      simp at this
    cases c with
    | addSignature e1 e2 e3 e4 e5 e6 e7 e8 =>
      simp only [recordPairs, List.nodup_cons, List.mem_cons, Prod.mk.injEq, not_or]
      refine ⟨⟨?_, ?_, ?_, ?_, hfar _⟩, ⟨?_, ?_, ?_, hfar _⟩, ⟨?_, ?_, hfar _⟩, ⟨?_, hfar _⟩,
        hfar _, ih (n + 1)⟩ <;> simp
    | addSwSignature e1 e2 e3 =>
      simp only [recordPairs, List.nodup_cons]
      exact ⟨hfar _, ih (n + 1)⟩
    | newAKNDocument d => simpa only [recordPairs] using ih n
    | finalize => simpa only [recordPairs] using ih n
    | finalizeNoConclusions => simpa only [recordPairs] using ih n

theorem identifier_lists_nodup (i n : Nat) (bs : List Block) (cs : List Call) :
    ((blockPairs i bs ++ recordPairs n cs).map (fun p => idString p.1 p.2)).Nodup := by
  apply List.Nodup.map
  · intro p q hpq
    obtain ⟨h1, h2⟩ := idString_injective p.1 q.1 p.2 q.2 hpq
    exact Prod.ext h1 h2
  · rw [List.nodup_append]
    refine ⟨blockPairs_nodup i bs, recordPairs_nodup n cs, ?_⟩
    intro p hb hr
    have h1 := (mem_blockPairs i bs p hb).1
    have h2 := (mem_recordPairs n cs p hr).1
    rw [h1] at h2
    exact Bool.noConfusion h2

theorem exec_append (tm : Templates) (a : Nat) (c : Call) (st : St)
    (hT : LedgerSkeleton tm a) (hS : LedgerState a st.self.conclusions)
    (hc : c.isAppend = true) :
    (∃ o, (c.exec tm st).self.conclusions = .obj o ∧ getProp "signature" o = some (.ref a)) ∧
      (c.exec tm st).self.metaAndMain = st.self.metaAndMain := by
  cases c with
  | addSignature e1 e2 e3 e4 e5 e6 e7 e8 =>
    obtain ⟨st', o, hret, _, _, _, hmm, hcc, hget⟩ :=
      append_spec tm (fun n => humanRecord n e1 e2 e3 e4 e5 e6 e7 e8) a st hT hS
    have hexec : (Call.addSignature e1 e2 e3 e4 e5 e6 e7 e8).exec tm st = st' := by
      simp only [Call.exec, addSignature]
      rw [hret]
      rfl
    rw [hexec]
    exact ⟨⟨o, hcc, hget⟩, hmm⟩
  | addSwSignature e1 e2 e3 =>
    obtain ⟨st', o, hret, _, _, _, hmm, hcc, hget⟩ :=
      append_spec tm (fun n => swRecord n e1 e2 e3) a st hT hS
    have hexec : (Call.addSwSignature e1 e2 e3).exec tm st = st' := by
      simp only [Call.exec, addSwSignature]
      rw [hret]
      rfl
    rw [hexec]
    exact ⟨⟨o, hcc, hget⟩, hmm⟩
  | newAKNDocument d => simp [Call.isAppend] at hc
  | finalize => simp [Call.isAppend] at hc
  | finalizeNoConclusions => simp [Call.isAppend] at hc

theorem run_appends (tm : Templates) (a : Nat) (cs : List Call) (st : St)
    (hT : LedgerSkeleton tm a) (hS : LedgerState a st.self.conclusions)
    (happ : ∀ c ∈ cs, c.isAppend = true) :
    (run tm cs st).self.metaAndMain = st.self.metaAndMain ∧
    (cs ≠ [] → ∃ o, (run tm cs st).self.conclusions = .obj o ∧
      getProp "signature" o = some (.ref a)) := by
  induction cs generalizing st with
  | nil => exact ⟨rfl, fun h => absurd rfl h⟩
  | cons c cs ih =>
    obtain ⟨⟨o, ho, hget⟩, hmm⟩ := exec_append tm a c st hT hS (happ c (List.mem_cons_self _ _))
    obtain ⟨i1, i2⟩ := ih (c.exec tm st) (Or.inr ⟨o, ho, hget⟩)
      (fun x hx => happ x (List.mem_cons_of_mem _ hx))
    refine ⟨by simp only [run, i1, hmm], fun _ => ?_⟩
    cases cs with
    | nil => exact ⟨o, ho, hget⟩
    | cons c' cs' => exact i2 (List.cons_ne_nil _ _)

/-- C12, as the claim states it, fails: with the paragraph content
`{"@eId": "tblock_1", text: "Hello"}` the paragraph of the first block carries
the identifier of the block itself. -/
theorem paragraph_identifier_collides :
    generatedIds (run stdTemplates [.newAKNDocument collidingInput] freshState) =
      ["tblock_1", "tblock_1__heading", "tblock_1"] ∧
    ¬ (generatedIds (run stdTemplates [.newAKNDocument collidingInput] freshState)).Nodup := by
  have h : generatedIds (run stdTemplates [.newAKNDocument collidingInput] freshState) =
      ["tblock_1", "tblock_1__heading", "tblock_1"] := rfl
  refine ⟨h, ?_⟩
  rw [h]
  decide

/-- C12 (amended): for every construction input that newAKNDocument can
assemble and none of whose paragraph contents has an `@eId` of its own, and
every sequence of signature appends that follows on an instance constructed
while the signature list of the conclusions skeleton is empty, the identifiers
of the body blocks, their headings and their paragraphs and of all parts of all
ledger records (person, role, publicKey, publicKey ref, timestamp, software
object) are pairwise distinct strings. -/
theorem generated_identifiers_distinct (tm : Templates) (a : Nat) (d : DocElements)
    (cs : List Call) (h0 : Heap) (hT : LedgerSkeleton tm a) (hv : Assemblable tm h0 d)
    (hp : ∀ b ∈ d.mainBody, getProp "@eId" (spread h0 b.p) = none)
    (hfresh : h0 a = []) (happ : ∀ c ∈ cs, c.isAppend = true) :
    (generatedIds (run tm (.newAKNDocument d :: cs) { heap := h0, self := AKNDoc.new })).Nodup := by
  obtain ⟨tree, hb, hbuilt⟩ := buildDocument_spec tm h0 d hv
  have hstart : (Call.newAKNDocument d).exec tm { heap := h0, self := AKNDoc.new } =
      { heap := h0, self := { AKNDoc.new with metaAndMain := tree } } := by
    simp [Call.exec, newAKNDocument, hb, Outcome.st]
  have hS : LedgerState a
      ({ heap := h0, self := { AKNDoc.new with metaAndMain := tree } } : St).self.conclusions :=
    Or.inl rfl
  obtain ⟨hmm, hpres⟩ := run_appends tm a cs _ hT hS happ
  obtain ⟨hheap, _, _⟩ := run_ledger tm a cs
    { heap := h0, self := { AKNDoc.new with metaAndMain := tree } } hT hS
  have hblocks : bodyBlocks (run tm (.newAKNDocument d :: cs) { heap := h0, self := AKNDoc.new })
      = blocksFrom h0 1 d.mainBody := by
    simp only [run, hstart, bodyBlocks, hmm]
    show (match readPath tree (bodyPath ++ ["tblock"]) with
      | .ok (.arr blocks) => blocks
      | _ => []) = _
    rw [hbuilt.body]
  have hledger : ledger (run tm (.newAKNDocument d :: cs) { heap := h0, self := AKNDoc.new })
      = recordsFrom 0 cs := by
    simp only [run, hstart]
    cases cs with
    | nil => rfl
    | cons c cs =>
      obtain ⟨o, ho, hget⟩ := hpres (List.cons_ne_nil _ _)
      rw [ledger_of_ledgerState a _ o ho hget, hheap]
      show h0 a ++ recordsFrom 0 (c :: cs) = _
      rw [hfresh]
      rfl
  unfold generatedIds
  rw [hblocks, hledger, blocksFrom_identifiers h0 1 d.mainBody hp, recordsFrom_identifiers,
    ← List.map_append]
  exact identifier_lists_nodup 1 0 d.mainBody cs

theorem generated_identifiers_distinct_witness :
    (LedgerSkeleton stdTemplates ledgerAddr ∧
      Assemblable stdTemplates freshHeap scenarioInput ∧
      (∀ b ∈ scenarioInput.mainBody, getProp "@eId" (spread freshHeap b.p) = none) ∧
      freshHeap ledgerAddr = [] ∧
      (∀ c ∈ [aliceSignature, botSignature], c.isAppend = true) ∧
      generatedIds (run stdTemplates
          (.newAKNDocument scenarioInput :: [aliceSignature, botSignature])
          { heap := freshHeap, self := AKNDoc.new }) =
        ["tblock_1", "tblock_1__heading", "tblock_1__p_1", "conclusion_signature_1_pers",
         "conclusion_signature_1_pers_role", "conclusion_signature_1_pk",
         "conclusion_signature_1_pk_ref", "conclusion_signature_1_timestamp",
         "conclusion_signature_2_sw"]) ∧
    (generatedIds (run stdTemplates
      (.newAKNDocument scenarioInput :: [aliceSignature, botSignature])
      { heap := freshHeap, self := AKNDoc.new })).Nodup :=
  ⟨⟨stdTemplates_ledgerSkeleton, scenarioInput_assemblable,
      by intro b hb; simp only [scenarioInput, List.mem_singleton] at hb; subst hb; rfl,
      rfl, by decide, rfl⟩,
   generated_identifiers_distinct stdTemplates ledgerAddr scenarioInput
     [aliceSignature, botSignature] freshHeap stdTemplates_ledgerSkeleton
     scenarioInput_assemblable
     (by intro b hb; simp only [scenarioInput, List.mem_singleton] at hb; subst hb; rfl)
     rfl (by decide)⟩

end AKN
